import Mathlib

/-!
# Fitness backend (`backend/main.go`): a shallow embedding

The Go program is a small HTTP server with three handlers (`handleSubmit`,
`handleImageAnalysis`, `handleGetData`), two spreadsheet helpers
(`saveToGoogleSheets`, `readFromGoogleSheets`), one AI helper (`callGemini`)
and `main`.

Modelling conventions.

* A Go `string` is a Lean `String` (a sequence of Unicode code points); the
  character-level functions work on `List Char`.  Byte sequences that are not
  valid UTF-8 are outside the model.
* The outside world (the spreadsheet service, the AI service, the clock, the
  process environment) is a record of answers, `World`; every call a handler
  makes to it, and every call to one of the helpers of `main.go`, is written to
  a trace of `Event`s in program order.
* The functions of the Go standard library that the program calls
  (`strings.ReplaceAll`, `strings.TrimSpace`, `strings.HasPrefix`,
  `strings.Contains`, `encoding/json`, `net/http`) are modelled from their
  documented behaviour; each model says what it covers.
-/

namespace FitnessBackend

/-- Equality of results is decidable when it is for errors and values. -/
instance instDecidableEqExcept {ε α : Type} [DecidableEq ε] [DecidableEq α] :
    DecidableEq (Except ε α) := fun a b =>
  match a, b with
  | .ok x, .ok y =>
    if h : x = y then isTrue (by rw [h]) else isFalse (fun h2 => h (by cases h2; rfl))
  | .error x, .error y =>
    if h : x = y then isTrue (by rw [h]) else isFalse (fun h2 => h (by cases h2; rfl))
  | .ok _, .error _ => isFalse (fun h => by cases h)
  | .error _, .ok _ => isFalse (fun h => by cases h)

/-! ## The `strings` package -/

/-- `strings.HasPrefix(s, p)`. -/
def hasPrefix (s p : String) : Bool :=
  p.data.isPrefixOf s.data

/-- Substring test on character lists: some suffix of `s` starts with `sub`. -/
def containsChars (sub : List Char) : List Char → Bool
  | [] => sub.isPrefixOf []
  | c :: cs => sub.isPrefixOf (c :: cs) || containsChars sub cs

/-- `strings.Contains(s, sub)`. -/
def stringsContains (s sub : String) : Bool :=
  containsChars sub.data s.data

/-- The scan of `strings.Replace(s, old, new, -1)` for a non-empty `old`:
matches are found left to right and do not overlap.  The first argument counts
the characters of a match that are still to be skipped. -/
def replaceScan (old new : List Char) : Nat → List Char → List Char
  | _, [] => []
  | skip + 1, _ :: cs => replaceScan old new skip cs
  | 0, c :: cs =>
    if old.isPrefixOf (c :: cs) then new ++ replaceScan old new (old.length - 1) cs
    else c :: replaceScan old new 0 cs

/-- `strings.ReplaceAll(s, old, new)` on character lists.  With an empty `old`
Go inserts `new` before the first character and after every character. -/
def replaceAllChars (s old new : List Char) : List Char :=
  if old = new then s
  else if old = [] then new ++ s.flatMap (fun c => c :: new)
  else replaceScan old new 0 s

/-- `strings.ReplaceAll(s, old, new)`. -/
def replaceAll (s old new : String) : String :=
  ⟨replaceAllChars s.data old.data new.data⟩

/-- `unicode.IsSpace`: the Latin-1 spaces and the other code points with the
`White_Space` property. -/
def isSpace (c : Char) : Bool :=
  let n := c.toNat
  (9 ≤ n && n ≤ 13) || n = 32 || n = 0x85 || n = 0xA0 || n = 0x1680 ||
  (0x2000 ≤ n && n ≤ 0x200A) || n = 0x2028 || n = 0x2029 || n = 0x202F ||
  n = 0x205F || n = 0x3000

/-- `strings.TrimSpace` on character lists: leading and trailing white space
(as `unicode.IsSpace` defines it) is removed. -/
def trimSpaceChars (s : List Char) : List Char :=
  (s.dropWhile isSpace).rdropWhile isSpace

/-- `strings.TrimSpace(s)`. -/
def trimSpace (s : String) : String :=
  ⟨trimSpaceChars s.data⟩

/-! ## `callGemini`: cleaning the response text (lines 346-352) -/

/-- The Markdown code-fence marker, three backticks. -/
def fence : String := "```"

/-- The last three statements of `callGemini`: every "```json" is removed,
then every "```", then the text is trimmed. -/
def cleanGeminiText (text : String) : String :=
  let text := replaceAll text "```json" ""
  let text := replaceAll text "```" ""
  trimSpace text

/-! ## `encoding/json`: the text of a value

The model reads a JSON text into a tree and then stores the tree into the Go
struct; Go validates the text with its scanner and then walks it a second
time, storing as it goes.  The grammar is the scanner's (RFC 8259, nesting
limited to `maxNestingDepth`), the stores are those of `decode.go`. -/

/-- A JSON value. -/
inductive JValue where
  | null
  | bool (b : Bool)
  | number (raw : String)
  | str (s : String)
  | array (items : List JValue)
  | object (members : List (String × JValue))

/-- The errors of `encoding/json`, by kind.
* `endOfInput`: `io.EOF`, the stream holds nothing but white space;
* `invalidText`: a `SyntaxError` or `io.ErrUnexpectedEOF`, the text is not a
  JSON value (the model does not tell the two apart);
* `typeMismatch`: an `UnmarshalTypeError`, a JSON value of kind `value` met a
  Go value of type `goType`;
* `outOfFuel`: not an error of Go; the recursion bound of the model was
  reached (`parseValue_fuel` shows it never is with the bound in use). -/
inductive JsonError where
  | endOfInput
  | invalidText
  | typeMismatch (value : String) (goType : String)
  | outOfFuel
  deriving DecidableEq, Repr

/-- The scanner's `isSpace`: space, tab, carriage return, line feed. -/
def isJsonSpace (c : Char) : Bool :=
  c = ' ' || c = '\t' || c = '\r' || c = '\n'

/-- White space is skipped between tokens. -/
def skipSpace (s : List Char) : List Char :=
  s.dropWhile isJsonSpace

/-- The scanner's `maxNestingDepth`. -/
def maxNestingDepth : Nat := 10000

/-- A piece of a string literal: a character written as itself (or with a
one-letter escape), or the UTF-16 code unit of a `\uXXXX` escape. -/
inductive StrPiece where
  | char (c : Char)
  | unit (n : Nat)

/-- The value of a hexadecimal digit. -/
def hexVal (c : Char) : Option Nat :=
  let n := c.toNat
  if 48 ≤ n ∧ n ≤ 57 then some (n - 48)
  else if 97 ≤ n ∧ n ≤ 102 then some (n - 87)
  else if 65 ≤ n ∧ n ≤ 70 then some (n - 55)
  else none

/-- The character a one-letter escape stands for (`stateInStringEsc`). -/
def simpleEscape (c : Char) : Option Char :=
  if c = '"' then some '"'
  else if c = '\\' then some '\\'
  else if c = '/' then some '/'
  else if c = 'b' then some (Char.ofNat 8)
  else if c = 'f' then some (Char.ofNat 12)
  else if c = 'n' then some '\n'
  else if c = 'r' then some '\r'
  else if c = 't' then some '\t'
  else none

/-- The body of a string literal, after its opening quote, up to and including
the closing quote (`stateInString` and the states after a backslash): the
pieces of the string and the text that follows it. -/
def scanString : List Char → Except JsonError (List StrPiece × List Char)
  | [] => .error .invalidText
  | c :: cs =>
    if c = '"' then .ok ([], cs)
    else if c = '\\' then
      match cs with
      | [] => .error .invalidText
      | e :: cs1 =>
        if e = 'u' then
          match cs1 with
          | h1 :: h2 :: h3 :: h4 :: cs2 =>
            match hexVal h1, hexVal h2, hexVal h3, hexVal h4 with
            | some a, some b, some c3, some d =>
              match scanString cs2 with
              | .ok (ps, rest) => .ok (.unit (((a * 16 + b) * 16 + c3) * 16 + d) :: ps, rest)
              | .error err => .error err
            | _, _, _, _ => .error .invalidText
          | _ => .error .invalidText
        else
          match simpleEscape e with
          | some ch =>
            match scanString cs1 with
            | .ok (ps, rest) => .ok (.char ch :: ps, rest)
            | .error err => .error err
          | none => .error .invalidText
    else if c.toNat < 32 then .error .invalidText
    else
      match scanString cs with
      | .ok (ps, rest) => .ok (.char c :: ps, rest)
      | .error err => .error err

/-- The character of a lone `\uXXXX` escape: a surrogate half becomes
`unicode.ReplacementChar`. -/
def unitChar (n : Nat) : Char :=
  if 0xD800 ≤ n ∧ n < 0xE000 then Char.ofNat 0xFFFD else Char.ofNat n

/-- The character of the surrogate pair that the escape `hi` forms with the
piece right after it, if it does (`utf16.DecodeRune`). -/
def surrogatePair (hi : Nat) (rest : List StrPiece) : Option Char :=
  match rest with
  | .unit lo :: _ =>
    if 0xD800 ≤ hi ∧ hi < 0xDC00 ∧ 0xDC00 ≤ lo ∧ lo < 0xE000 then
      some (Char.ofNat ((((hi - 0xD800) <<< 10) ||| (lo - 0xDC00)) + 0x10000))
    else none
  | _ => none

/-- The characters of a string literal (`unquoteBytes`): a high surrogate
escape directly followed by a low surrogate escape is one character.  The flag
says that the next piece is the second half of a pair already written. -/
def decodePiecesFrom : Bool → List StrPiece → List Char
  | _, [] => []
  | true, _ :: rest => decodePiecesFrom false rest
  | false, .char c :: rest => c :: decodePiecesFrom false rest
  | false, .unit hi :: rest =>
    match surrogatePair hi rest with
    | some ch => ch :: decodePiecesFrom true rest
    | none => unitChar hi :: decodePiecesFrom false rest

/-- The characters of a string literal. -/
def decodePieces (ps : List StrPiece) : List Char :=
  decodePiecesFrom false ps

/-- A string literal after its opening quote: its value and the rest. -/
def readString (s : List Char) : Except JsonError (String × List Char) :=
  match scanString s with
  | .ok (ps, rest) => .ok (⟨decodePieces ps⟩, rest)
  | .error err => .error err

/-- The sign of an exponent, if there is one, and the text after it
(`stateE`). -/
def splitSign (s : List Char) : List Char × List Char :=
  match s with
  | [] => ([], [])
  | g :: r => if g = '+' ∨ g = '-' then ([g], r) else ([], g :: r)

/-- The exponent of a number, if any (`stateDot0`, `stateE`, `stateESign`,
`stateE0`); `acc` is the text of the number so far. -/
def scanExponent (acc s : List Char) : Except JsonError (List Char × List Char) :=
  match s with
  | [] => .ok (acc, [])
  | e :: r =>
    if e = 'e' ∨ e = 'E' then
      let sign := splitSign r
      let digits := sign.2.span Char.isDigit
      if digits.1 = [] then .error .invalidText
      else .ok (acc ++ e :: sign.1 ++ digits.1, digits.2)
    else .ok (acc, e :: r)

/-- The fraction of a number, if any, and then the exponent (`state0`,
`stateDot`). -/
def scanFraction (acc s : List Char) : Except JsonError (List Char × List Char) :=
  match s with
  | [] => .ok (acc, [])
  | p :: r =>
    if p = '.' then
      let digits := r.span Char.isDigit
      if digits.1 = [] then .error .invalidText
      else scanExponent (acc ++ p :: digits.1) digits.2
    else scanExponent acc (p :: r)

/-- The integer part after an optional sign (`stateNeg`, `state1`, `state0`):
a zero is not followed by further digits of the same number. -/
def scanInteger (acc s : List Char) : Except JsonError (List Char × List Char) :=
  match s with
  | [] => .error .invalidText
  | c :: r =>
    if c = '0' then scanFraction (acc ++ [c]) r
    else if c.isDigit then
      let digits := r.span Char.isDigit
      scanFraction (acc ++ c :: digits.1) digits.2
    else .error .invalidText

/-- A number: its text and the rest. -/
def scanNumber (s : List Char) : Except JsonError (List Char × List Char) :=
  match s with
  | [] => .error .invalidText
  | c :: r => if c = '-' then scanInteger [c] r else scanInteger [] (c :: r)

/-- A literal name (`true`, `false`, `null`) must be spelled out in full. -/
def scanLiteral (name : String) (v : JValue) (s : List Char) :
    Except JsonError (JValue × List Char) :=
  if name.data.isPrefixOf s then .ok (v, s.drop name.length) else .error .invalidText

mutual

/-- One JSON value at the head of `s` (`stateBeginValue`, white space already
skipped) and the text after it.  `depth` is the number of arrays and objects
that are open. -/
def parseValue : Nat → Nat → List Char → Except JsonError (JValue × List Char)
  | 0, _, _ => .error .outOfFuel
  | fuel + 1, depth, s =>
    match s with
    | [] => .error .invalidText
    | c :: rest =>
      if c = '{' then
        if depth + 1 > maxNestingDepth then .error .invalidText
        else
          match skipSpace rest with
          | [] => .error .invalidText
          | d :: rest2 =>
            if d = '}' then .ok (.object [], rest2)
            else
              match parseMembers fuel (depth + 1) (d :: rest2) with
              | .ok (ms, r) => .ok (.object ms, r)
              | .error err => .error err
      else if c = '[' then
        if depth + 1 > maxNestingDepth then .error .invalidText
        else
          match skipSpace rest with
          | [] => .error .invalidText
          | d :: rest2 =>
            if d = ']' then .ok (.array [], rest2)
            else
              match parseElements fuel (depth + 1) (d :: rest2) with
              | .ok (vs, r) => .ok (.array vs, r)
              | .error err => .error err
      else if c = '"' then
        match readString rest with
        | .ok (str, r) => .ok (.str str, r)
        | .error err => .error err
      else if c = 't' then scanLiteral "true" (.bool true) (c :: rest)
      else if c = 'f' then scanLiteral "false" (.bool false) (c :: rest)
      else if c = 'n' then scanLiteral "null" .null (c :: rest)
      else
        match scanNumber (c :: rest) with
        | .ok (raw, r) => .ok (.number ⟨raw⟩, r)
        | .error err => .error err

/-- The elements of a non-empty array, from the first character of an element
up to and including the closing bracket. -/
def parseElements : Nat → Nat → List Char → Except JsonError (List JValue × List Char)
  | 0, _, _ => .error .outOfFuel
  | fuel + 1, depth, s =>
    match parseValue fuel depth s with
    | .error err => .error err
    | .ok (v, r) =>
      match skipSpace r with
      | [] => .error .invalidText
      | d :: r2 =>
        if d = ',' then
          match parseElements fuel depth (skipSpace r2) with
          | .ok (vs, r3) => .ok (v :: vs, r3)
          | .error err => .error err
        else if d = ']' then .ok ([v], r2)
        else .error .invalidText

/-- The members of a non-empty object, from the opening quote of a key up to
and including the closing brace. -/
def parseMembers : Nat → Nat → List Char →
    Except JsonError (List (String × JValue) × List Char)
  | 0, _, _ => .error .outOfFuel
  | fuel + 1, depth, s =>
    match s with
    | [] => .error .invalidText
    | q :: r =>
      if q = '"' then
        match readString r with
        | .error err => .error err
        | .ok (key, r1) =>
          match skipSpace r1 with
          | [] => .error .invalidText
          | colon :: r2 =>
            if colon = ':' then
              match parseValue fuel depth (skipSpace r2) with
              | .error err => .error err
              | .ok (v, r3) =>
                match skipSpace r3 with
                | [] => .error .invalidText
                | d :: r4 =>
                  if d = ',' then
                    match parseMembers fuel depth (skipSpace r4) with
                    | .ok (ms, r5) => .ok ((key, v) :: ms, r5)
                    | .error err => .error err
                  else if d = '}' then .ok ([(key, v)], r4)
                  else .error .invalidText
            else .error .invalidText
      else .error .invalidText

end

/-- The recursion bound used for a text: more than any text needs. -/
def parseFuel (s : List Char) : Nat := 2 * s.length + 2

/-- `Decoder.readValue`: the first JSON value of a stream.  Leading white space
is skipped; the value ends where the scanner sees it complete, and what follows
it in the stream is not looked at. -/
def readFirstValue (stream : List Char) : Except JsonError JValue :=
  match skipSpace stream with
  | [] => .error .endOfInput
  | c :: s =>
    match parseValue (parseFuel (c :: s)) 0 (c :: s) with
    | .ok (v, _) => .ok v
    | .error err => .error err

/-- `checkValid` and the walk of `Unmarshal`: the whole text is one JSON value,
with white space around it at most. -/
def parseDocument (data : List Char) : Except JsonError JValue :=
  match parseValue (parseFuel data) 0 (skipSpace data) with
  | .ok (v, rest) => if skipSpace rest = [] then .ok v else .error .invalidText
  | .error err => .error err

/-! ## `encoding/json`: storing a value into a Go value

A value of the wrong kind does not stop the walk: the first such error is
saved (`saveError`) and returned at the end. -/

/-- The kind of a JSON value, as `UnmarshalTypeError.Value` names it. -/
def JValue.kind : JValue → String
  | .null => "null"
  | .bool _ => "bool"
  | .number _ => "number"
  | .str _ => "string"
  | .array _ => "array"
  | .object _ => "object"

/-- The first saved error is the one kept. -/
def keepFirst (saved new : Option JsonError) : Option JsonError :=
  match saved with
  | some e => some e
  | none => new

/-- A JSON value stored into a Go `string` that holds `old`: a string sets it,
`null` leaves it as it is, any other value is a type error and leaves it as it
is. -/
def storeString (v : JValue) (old : String) : String × Option JsonError :=
  match v with
  | .str s => (s, none)
  | .null => (old, none)
  | other => (old, some (.typeMismatch other.kind "string"))

/-- The elements of a JSON array stored into the cells of a `[]string`, one
after the other; `cells` is what the backing array holds (a cell it does not
have is empty). -/
def storeStringCells : List JValue → List String → List String × Option JsonError
  | [], _ => ([], none)
  | v :: vs, cells =>
    let (cell, e) := storeString v (cells.headD "")
    let (rest, e2) := storeStringCells vs cells.tail
    (cell :: rest, keepFirst e e2)

/-- A `[]string`: its elements, and the cells of its backing array beyond its
length (decoding into a slice reuses them). -/
structure StringSlice where
  elems : List String
  spare : List String
  deriving DecidableEq, Repr

/-- A JSON value stored into a `[]string` (`d.array`, `literalStore`): an
array sets the elements one by one, an empty array or `null` gives a slice
without backing array, any other value is a type error. -/
def storeStringSlice (v : JValue) (old : StringSlice) : StringSlice × Option JsonError :=
  match v with
  | .array [] => (⟨[], []⟩, none)
  | .array (x :: xs) =>
    let backing := old.elems ++ old.spare
    let (cells, e) := storeStringCells (x :: xs) backing
    (⟨cells, backing.drop (x :: xs).length⟩, e)
  | .null => (⟨[], []⟩, none)
  | other => (old, some (.typeMismatch other.kind "[]string"))

/-- The folding of one character of a key (`foldName`): an ASCII letter is
upper-cased; the long s and the Kelvin sign are the two other characters whose
case orbit holds an ASCII letter.  Every other character folds outside ASCII
and is left as it is, which decides the comparison with an ASCII field name the
same way. -/
def foldRune (c : Char) : Char :=
  let n := c.toNat
  if 97 ≤ n ∧ n ≤ 122 then Char.ofNat (n - 32)
  else if n = 0x17F then 'S'
  else if n = 0x212A then 'K'
  else c

/-- The folded form of a name. -/
def foldName (name : String) : List Char :=
  name.data.map foldRune

/-- The field a key of a JSON object is stored into: the one with exactly that
name, else the first whose name is equal to it under case folding. -/
def matchField (fields : List String) (key : String) : Option String :=
  match fields.find? (fun f => f = key) with
  | some f => some f
  | none => fields.find? (fun f => foldName f = foldName key)

/-- The request of `/submit` (lines 27-30). -/
structure SheetRequest where
  TargetSheet : String
  RowData : List String
  deriving DecidableEq, Repr

/-- The answer the AI is asked for (lines 21-25). -/
structure CardioData where
  Duration : String
  Distance : String
  Calories : String
  deriving DecidableEq, Repr

/-- The JSON names of the fields of `SheetRequest`. -/
def sheetRequestFields : List String := ["target_sheet", "row_data"]

/-- The JSON names of the fields of `CardioData`. -/
def cardioFields : List String := ["duration", "distance", "calories"]

/-- A `SheetRequest` while it is being decoded. -/
structure SheetRequestState where
  TargetSheet : String
  RowData : StringSlice
  savedError : Option JsonError
  deriving DecidableEq, Repr

/-- One member of a JSON object stored into a `SheetRequest`; a key that
matches no field is skipped. -/
def storeSheetRequestMember (st : SheetRequestState) (m : String × JValue) :
    SheetRequestState :=
  match matchField sheetRequestFields m.1 with
  | some "target_sheet" =>
    let (s, e) := storeString m.2 st.TargetSheet
    { st with TargetSheet := s, savedError := keepFirst st.savedError e }
  | some "row_data" =>
    let (sl, e) := storeStringSlice m.2 st.RowData
    { st with RowData := sl, savedError := keepFirst st.savedError e }
  | _ => st

/-- A JSON value stored into a zero `SheetRequest` (`d.unmarshal`). -/
def unmarshalSheetRequest (v : JValue) : Except JsonError SheetRequest :=
  match v with
  | .object ms =>
    let st := ms.foldl storeSheetRequestMember ⟨"", ⟨[], []⟩, none⟩
    match st.savedError with
    | none => .ok ⟨st.TargetSheet, st.RowData.elems⟩
    | some e => .error e
  | .null => .ok ⟨"", []⟩
  | other => .error (.typeMismatch other.kind "main.SheetRequest")

/-- A `CardioData` while it is being decoded. -/
structure CardioState where
  data : CardioData
  savedError : Option JsonError
  deriving DecidableEq, Repr

/-- One member of a JSON object stored into a `CardioData`. -/
def storeCardioMember (st : CardioState) (m : String × JValue) : CardioState :=
  match matchField cardioFields m.1 with
  | some "duration" =>
    let (s, e) := storeString m.2 st.data.Duration
    ⟨{ st.data with Duration := s }, keepFirst st.savedError e⟩
  | some "distance" =>
    let (s, e) := storeString m.2 st.data.Distance
    ⟨{ st.data with Distance := s }, keepFirst st.savedError e⟩
  | some "calories" =>
    let (s, e) := storeString m.2 st.data.Calories
    ⟨{ st.data with Calories := s }, keepFirst st.savedError e⟩
  | _ => st

/-- A JSON value stored into a zero `CardioData`. -/
def unmarshalCardioData (v : JValue) : Except JsonError CardioData :=
  match v with
  | .object ms =>
    let st := ms.foldl storeCardioMember ⟨⟨"", "", ""⟩, none⟩
    match st.savedError with
    | none => .ok st.data
    | some e => .error e
  | .null => .ok ⟨"", "", ""⟩
  | other => .error (.typeMismatch other.kind "main.CardioData")

/-- `json.NewDecoder(r.Body).Decode(&req)` with `req` a zero `SheetRequest`
(line 117): the first value of the body is read and stored. -/
def decodeSheetRequest (body : String) : Except JsonError SheetRequest :=
  match readFirstValue body.data with
  | .ok v => unmarshalSheetRequest v
  | .error err => .error err

/-- `json.Unmarshal([]byte(resultJSON), &cardio)` with `cardio` a zero
`CardioData` (line 162): the whole text is one value, which is stored. -/
def jsonUnmarshalCardio (text : String) : Except JsonError CardioData :=
  match parseDocument text.data with
  | .ok v => unmarshalCardioData v
  | .error err => .error err

/-! ## The outside world and the trace of calls -/

/-- A cell read from the spreadsheet: an untyped value (`interface{}`). -/
inductive Cell where
  | text (s : String)
  | number (raw : String)
  | bool (b : Bool)
  deriving DecidableEq, Repr

/-- The configuration (the package variables set by `main`) and the answers of
the outside world.  A Go `error` is its message. -/
structure World where
  /-- the package variable `SpreadSheetID` -/
  SpreadSheetID : String
  /-- the package variable `GeminiApiKey` -/
  GeminiApiKey : String
  /-- the package variable `CredsFile` -/
  CredsFile : String
  /-- `time.Now().Format("2006-01-02 15:04:05")` -/
  now : String
  /-- `sheets.NewService(ctx, option.WithCredentialsFile(creds))` -/
  sheetsNewService : String → Except String Unit
  /-- `srv.Spreadsheets.Values.Append(id, range, values).ValueInputOption(opt).Do()` -/
  sheetsAppend : String → String → List (List String) → String → Except String Unit
  /-- `srv.Spreadsheets.Values.Get(id, range).Do()`, the `Values` of the answer -/
  sheetsGet : String → String → Except String (List (List Cell))
  /-- `genai.NewClient(ctx, &genai.ClientConfig{APIKey: key})` -/
  genaiNewClient : String → Except String Unit
  /-- `client.Models.GenerateContent(ctx, model, text part + image part, nil)`
  and `resp.Text()`; the arguments are the model, the prompt, the MIME type and
  the image bytes -/
  generateContent : String → String → String → List Nat → Except String String

/-- What a handler does that can be seen from outside it, in program order: the
calls to the helpers of `main.go`, the calls to the outside services, and the
lines written to the log and to standard output. -/
inductive Event where
  | saveToGoogleSheets (targetSheet : String) (data : List String)
  | readFromGoogleSheets (targetSheet : String)
  | callGemini (imgBytes : List Nat)
  | sheetsNewService (creds : String)
  | sheetsAppend (spreadsheet range : String) (values : List (List String))
      (valueInputOption : String)
  | sheetsGet (spreadsheet range : String)
  | genaiNewClient (apiKey : String)
  | generateContent (model prompt mimeType : String) (imgBytes : List Nat)
  | logged (line : String)
  deriving DecidableEq, Repr

/-- The calls to `saveToGoogleSheets` in a trace. -/
def savesOf (t : List Event) : List (String × List String) :=
  t.filterMap fun e =>
    match e with
    | .saveToGoogleSheets sheet data => some (sheet, data)
    | _ => none

/-- The append calls sent to the spreadsheet service in a trace: spreadsheet,
range, rows and value input option. -/
def appendsOf (t : List Event) : List (String × String × List (List String) × String) :=
  t.filterMap fun e =>
    match e with
    | .sheetsAppend id range values opt => some (id, range, values, opt)
    | _ => none

/-- The ranges read from the spreadsheet service in a trace. -/
def readsOf (t : List Event) : List (String × String) :=
  t.filterMap fun e =>
    match e with
    | .sheetsGet id range => some (id, range)
    | _ => none

/-- The calls to `callGemini` in a trace. -/
def geminiCallsOf (t : List Event) : List (List Nat) :=
  t.filterMap fun e =>
    match e with
    | .callGemini img => some img
    | _ => none

/-! ## `net/http` -/

/-- The body of a response: text, or the JSON encoding of a Go map from
strings to tables of cells (the argument given to `Encode`). -/
inductive Body where
  | text (s : String)
  | jsonMap (entries : List (String × List (List Cell)))
  deriving DecidableEq, Repr

/-- An HTTP response: status, the headers the handler sets, body. -/
structure Response where
  status : Nat
  headers : List (String × String)
  body : Body
  deriving DecidableEq, Repr

/-- `http.Error(w, msg, code)`: a plain-text response, the message followed by
a line feed. -/
def httpError (msg : String) (code : Nat) : Response :=
  ⟨code, [("Content-Type", "text/plain; charset=utf-8"),
          ("X-Content-Type-Options", "nosniff")], .text (msg ++ "\n")⟩

/-- A file part of a multipart form: whether it can be opened, and what
`io.ReadAll` gives for it. -/
structure FormFileModel where
  opened : Except String Unit
  readAll : Except String (List Nat)

/-- An HTTP request, as far as the handlers look at it: the body, the parsed
query (`r.URL.Query()`), and the file parts of the multipart form
(`r.MultipartForm.File`, `none` when the form cannot be parsed). -/
structure Request where
  body : String
  query : List (String × List String)
  formFiles : Option (List (String × List FormFileModel))

/-- `url.Values.Get(key)`: the first value of the key, or the empty string. -/
def valuesGet (v : List (String × List String)) (key : String) : String :=
  match v.lookup key with
  | some (x :: _) => x
  | _ => ""

/-- `r.FormFile(key)`: the first file of the key, opened and read
(`io.ReadAll`, line 145, is folded in: the outer result is that of `FormFile`,
the inner one that of the read). -/
def formFile (r : Request) (key : String) : Except String (Except String (List Nat)) :=
  match r.formFiles with
  | none => .error "request Content-Type isn't multipart/form-data"
  | some files =>
    match files.lookup key with
    | some (f :: _) =>
      match f.opened with
      | .ok () => .ok f.readAll
      | .error err => .error err
    | _ => .error "http: no such file"

/-! ## The helpers of `main.go` -/

/-- `saveToGoogleSheets` (lines 277-299): the error returned (`none` for
`nil`) and the trace. -/
def saveToGoogleSheets (w : World) (targetSheet : String) (data : List String) :
    Option String × List Event :=
  let called := Event.saveToGoogleSheets targetSheet data
  match w.sheetsNewService w.CredsFile with
  | .error err => (some ("auth error: " ++ err), [called, .sheetsNewService w.CredsFile])
  | .ok () =>
    let row := data
    let targetSheet := if targetSheet = "" then "Logs" else targetSheet
    let rangeName := targetSheet ++ "!A:Z"
    let valueRange := [row]
    let trace := [called, .sheetsNewService w.CredsFile,
      .sheetsAppend w.SpreadSheetID rangeName valueRange "USER_ENTERED"]
    match w.sheetsAppend w.SpreadSheetID rangeName valueRange "USER_ENTERED" with
    | .error err => (some err, trace)
    | .ok () => (none, trace)

/-- `readFromGoogleSheets` (lines 261-275): the rows or the error, and the
trace. -/
def readFromGoogleSheets (w : World) (targetSheet : String) :
    Except String (List (List Cell)) × List Event :=
  let called := Event.readFromGoogleSheets targetSheet
  match w.sheetsNewService w.CredsFile with
  | .error err => (.error ("auth error: " ++ err), [called, .sheetsNewService w.CredsFile])
  | .ok () =>
    let rangeName := targetSheet ++ "!A:Z"
    let trace := [called, .sheetsNewService w.CredsFile, .sheetsGet w.SpreadSheetID rangeName]
    match w.sheetsGet w.SpreadSheetID rangeName with
    | .error err => (.error err, trace)
    | .ok values => (.ok values, trace)

/-- The package variable `GeminiModel`. -/
def GeminiModel : String := "gemini-2.5-flash"

/-- The prompt sent with the image (lines 317-322). -/
def prompt : String :=
  "Analyze this treadmill/cardio screen. Extract:\n\t1. Duration (Time)\n\t2. Distance (km or miles)\n\t3. Calories\n\tReturn ONLY a JSON object. No markdown.\n\tFormat: \x7b\"duration\": \"xx:xx\", \"distance\": \"x.x\", \"calories\": \"xxx\"\x7d"

/-- `callGemini` (lines 301-353): the cleaned text or the error, and the
trace. -/
def callGemini (w : World) (imgBytes : List Nat) : Except String String × List Event :=
  let called := Event.callGemini imgBytes
  if w.GeminiApiKey = "" ∨ stringsContains w.GeminiApiKey "PASTE_YOUR" then
    (.error "API Key is missing/invalid", [called])
  else
    match w.genaiNewClient w.GeminiApiKey with
    | .error err =>
      (.error ("failed to create GenAI client: " ++ err), [called, .genaiNewClient w.GeminiApiKey])
    | .ok () =>
      let trace := [called, .genaiNewClient w.GeminiApiKey,
        .generateContent GeminiModel prompt "image/jpeg" imgBytes]
      match w.generateContent GeminiModel prompt "image/jpeg" imgBytes with
      | .error err => (.error ("GenerateContent error: " ++ err), trace)
      | .ok text => (.ok (cleanGeminiText text), trace)

/-! ## The handlers -/

/-- `handleSubmit` (lines 115-132): the response and the trace.  A logged line
is given without the time stamp the logger puts before it. -/
def handleSubmit (w : World) (r : Request) : Response × List Event :=
  match decodeSheetRequest r.body with
  | .error _ => (httpError "Invalid JSON" 400, [])
  | .ok req =>
    let (err, trace) := saveToGoogleSheets w req.TargetSheet req.RowData
    match err with
    | some e => (httpError "Failed to save" 500, trace ++ [.logged ("Save Error: " ++ e)])
    | none => (⟨200, [], .text "Saved Successfully"⟩, trace)

/-- The `%v` form of a `[]string`. -/
def formatStrings (xs : List String) : String :=
  "[" ++ " ".intercalate xs ++ "]"

/-- The auto-save of `handleImageAnalysis` (lines 160-172): the trace it
leaves for the text the AI call returned. -/
def autoSave (w : World) (resultJSON : String) : List Event :=
  match jsonUnmarshalCardio resultJSON with
  | .ok cardio =>
    let timestamp := w.now
    let rowToSave := ["Cardio", timestamp, "AI Scan", cardio.Duration, cardio.Distance,
      cardio.Calories]
    let (saveErr, trace) := saveToGoogleSheets w "Logs" rowToSave
    match saveErr with
    | some e => trace ++ [.logged ("⚠️ AI analysis worked, but Auto-Save failed: " ++ e ++ "\n")]
    | none =>
      trace ++ [.logged ("✅ Auto-saved AI Cardio to Logs: " ++ formatStrings rowToSave ++ "\n")]
  | .error _ => []

/-- `handleImageAnalysis` (lines 135-176): the response and the trace. -/
def handleImageAnalysis (w : World) (r : Request) : Response × List Event :=
  match formFile r "image" with
  | .error _ => (httpError "No image found" 400, [])
  | .ok (.error _) => (httpError "Read error" 500, [])
  | .ok (.ok imgBytes) =>
    let (result, trace) := callGemini w imgBytes
    match result with
    | .error err =>
      (httpError ("AI Error: " ++ err) 500, trace ++ [.logged ("AI Error: " ++ err)])
    | .ok resultJSON =>
      (⟨200, [("Content-Type", "application/json")], .text resultJSON⟩,
        trace ++ autoSave w resultJSON)

/-- `handleGetData` (lines 178-196): the response and the trace. -/
def handleGetData (w : World) (r : Request) : Response × List Event :=
  let targetSheet := valuesGet r.query "sheet"
  let targetSheet := if targetSheet = "" then "Logs" else targetSheet
  let (result, trace) := readFromGoogleSheets w targetSheet
  match result with
  | .error err =>
    (httpError "Failed to read sheet" 500, trace ++ [.logged ("Read Error: " ++ err)])
  | .ok data =>
    let response := [("data", data)]
    (⟨200, [("Content-Type", "application/json")], .jsonMap response⟩, trace)

/-! ## `main`: configuration and start-up (lines 65-113) -/

/-- The listen address `main` computes from the value of the `PORT`
environment variable (lines 70-77). -/
def listenAddr (port : String) : String :=
  let PORT := port
  let PORT := if PORT = "" then ":8080" else PORT
  if !hasPrefix PORT ":" then ":" ++ PORT else PORT

/-- What `main` does, in program order. -/
inductive StartupEvent where
  | fatal (msg : String)
  | newServeMux
  | handleFunc (pattern : String)
  | printed (text : String)
  | listenAndServe (addr : String)
  deriving DecidableEq, Repr

/-- The message of the fatal error for a missing setting (line 85). -/
def missingConfigMsg : String :=
  "❌ CRITICAL ERROR: SPREADSHEET_ID or GEMINI_API_KEY is missing from environment variables!"

/-- `main` (lines 65-113).  `getenv` is the environment after `godotenv.Load`;
`listenError` is the error `ListenAndServe` returns, `none` if it never
returns.  `log.Fatal` ends the process. -/
def main (getenv : String → String) (listenError : Option String) : List StartupEvent :=
  let PORT := listenAddr (getenv "PORT")
  let SpreadSheetID := getenv "SpreadSheetID"
  let GeminiApiKey := getenv "GeminiApiKey"
  if SpreadSheetID = "" ∨ GeminiApiKey = "" then
    [.fatal missingConfigMsg]
  else
    [.newServeMux,
     .handleFunc "POST /submit",
     .handleFunc "POST /analyze-image",
     .handleFunc "GET /data",
     .printed "------------------------------------------------\n",
     .printed ("🚀 Fitness Server running on port " ++ PORT ++ "\n"),
     .printed "👉 /submit        -> Saves to Google Sheets\n",
     .printed "👉 /analyze-image -> Sends photo to Gemini AI\n",
     .printed "👉 /data          -> Retrieves data (Usage: /data?sheet=Logs)\n",
     .printed "👉 /seed-schedule -> ONE-TIME SETUP: Populates the Schedule tab\n",
     .printed "------------------------------------------------\n",
     .listenAndServe PORT] ++
    match listenError with
    | some e => [.fatal e]
    | none => []

/-! ## Auxiliary definitions for the statements -/

/-- The backtick. -/
def backtick : Char := Char.ofNat 96

/-- The number of backticks a text starts with. -/
def leadingTicks : List Char → Nat
  | [] => 0
  | c :: cs => if c = backtick then leadingTicks cs + 1 else 0

/-- The `PORT` value consists of decimal digits only. -/
def numericOnly (port : String) : Bool :=
  port.data.all Char.isDigit

/-- An environment: only the listed variables are set. -/
def envOf (vars : List (String × String)) (name : String) : String :=
  (vars.lookup name).getD ""

/-- A world in which every service answers: the AI returns the text `aiText`,
the spreadsheet holds the rows `rows`. -/
def worldWith (aiText : String) (rows : List (List Cell)) : World where
  SpreadSheetID := "sheet-1"
  GeminiApiKey := "key-1"
  CredsFile := "creds.json"
  now := "2025-01-02 03:04:05"
  sheetsNewService := fun _ => .ok ()
  sheetsAppend := fun _ _ _ _ => .ok ()
  sheetsGet := fun _ _ => .ok rows
  genaiNewClient := fun _ => .ok ()
  generateContent := fun _ _ _ _ => .ok aiText

/-- A world like `worldWith`, but every append to the spreadsheet fails. -/
def worldAppendFails (aiText : String) : World :=
  { worldWith aiText [] with sheetsAppend := fun _ _ _ _ => .error "quota exceeded" }

/-- A world whose AI call fails with the message `msg`. -/
def worldAiFails (msg : String) : World :=
  { worldWith "" [] with generateContent := fun _ _ _ _ => .error msg }

/-- A request with the given body, no query and no form. -/
def bodyRequest (body : String) : Request := ⟨body, [], none⟩

/-- A request with the given query, an empty body and no form. -/
def queryRequest (query : List (String × List String)) : Request := ⟨"", query, none⟩

/-- An upload of the bytes `img` in the form field `image`. -/
def imageRequest (img : List Nat) : Request :=
  ⟨"", [], some [("image", [⟨.ok (), .ok img⟩])]⟩

/-- The values of the members of an object that are stored into the field
`field`, in the order of the text. -/
def valuesFor (fields : List String) (field : String) (ms : List (String × JValue)) :
    List JValue :=
  (ms.filter (fun m => matchField fields m.1 = some field)).map (fun m => m.2)

/-- A JSON value that a Go `string` takes without error: a string or `null`. -/
def storable : JValue → Bool
  | .str _ => true
  | .null => true
  | _ => false

/-- A JSON value that `json.Unmarshal` stores into a `CardioData` without
error: `null`, or an object in which every member stored into one of the three
fields is a string or `null`. -/
def fitsCardio : JValue → Bool
  | .null => true
  | .object ms => ms.all (fun m => matchField cardioFields m.1 = none || storable m.2)
  | _ => false

/-- The text the AI is asked for, filled in (line 322). -/
def cardioText : String :=
  "\x7b\"duration\": \"30:00\", \"distance\": \"5.2\", \"calories\": \"300\"\x7d"

/-- A JSON value that a Go `[]string` takes without error: `null`, or an array
of strings and `null`s. -/
def sliceStorable : JValue → Bool
  | .array items => items.all storable
  | .null => true
  | _ => false

/-- A member of a JSON object that is stored into a `SheetRequest` without
error: its key matches no field, or its value suits the field. -/
def memberFitsSheetRequest (m : String × JValue) : Bool :=
  if matchField sheetRequestFields m.1 = some "target_sheet" then storable m.2
  else if matchField sheetRequestFields m.1 = some "row_data" then sliceStorable m.2
  else true

/-- A JSON value that is stored into a `SheetRequest` without error: `null`,
or an object all of whose members are. -/
def fitsSheetRequest : JValue → Bool
  | .null => true
  | .object ms => ms.all memberFitsSheetRequest
  | _ => false

/-- `json.Valid(data)`: the whole text is one JSON value. -/
def jsonValid (data : String) : Bool :=
  match parseDocument data.data with
  | .ok _ => true
  | .error _ => false

/-- The value is a number. -/
def JValue.isNumber : JValue → Bool
  | .number _ => true
  | _ => false

/-- The cell a JSON value leaves in an empty cell of a `[]string`: the string
itself, and nothing for any other value. -/
def cellText : JValue → String
  | .str s => s
  | _ => ""

/-- A text with two members stored into `Duration`, the second under a key in
capitals. -/
def cardioTwiceText : String :=
  "\x7b\"duration\":\"1\",\"DURATION\":\"2\",\"distance\":\"3\",\"calories\":\"4\"\x7d"

/-- A text with the three string fields and a number under the key `Duration`. -/
def cardioNumberText : String :=
  "\x7b\"duration\":\"1\",\"distance\":\"3\",\"calories\":\"4\",\"Duration\":5\x7d"

/-! ## Facts about the `strings` models -/

theorem fence_data : fence.data = [backtick, backtick, backtick] := by decide

theorem replaceScan_skip (old new : List Char) (k : Nat) (s : List Char) :
    replaceScan old new k s = replaceScan old new 0 (s.drop k) := by
  induction s generalizing k with
  | nil => cases k <;> simp [replaceScan]
  | cons c cs ih =>
    cases k with
    | zero => simp
    | succ k => simp [replaceScan, ih k]

theorem replicate_ticks_isPrefixOf_iff (k : Nat) (s : List Char) :
    (List.replicate k backtick).isPrefixOf s = true ↔ k ≤ leadingTicks s := by
  induction k generalizing s with
  | zero => simp
  | succ k ih =>
    match s with
    | [] => simp [List.replicate_succ, leadingTicks]
    | c :: cs =>
      by_cases hc : c = backtick
      · subst hc
        simp [List.replicate_succ, leadingTicks, ih]
      · have hne2 : ¬ backtick = c := fun h => hc h.symm
        simp [List.replicate_succ, leadingTicks, hc, hne2]

theorem fence_isPrefixOf_iff (s : List Char) :
    fence.data.isPrefixOf s = true ↔ 3 ≤ leadingTicks s := by
  have h : fence.data = List.replicate 3 backtick := by decide
  rw [h]
  exact replicate_ticks_isPrefixOf_iff 3 s

theorem fence_prefix_iff (s : List Char) :
    fence.data <+: s ↔ 3 ≤ leadingTicks s := by
  rw [← fence_isPrefixOf_iff, List.isPrefixOf_iff_prefix]

/-- Removing every fence marker: no marker is left, and the text starts with
the backticks that did not make up a marker. -/
theorem replaceScan_fence (n : Nat) (s : List Char) (hn : s.length ≤ n) :
    ¬ fence.data <:+: replaceScan fence.data [] 0 s ∧
    leadingTicks (replaceScan fence.data [] 0 s) = leadingTicks s % 3 := by
  induction n generalizing s with
  | zero =>
    have : s = [] := List.length_eq_zero.mp (Nat.le_zero.mp hn)
    subst this
    simp [replaceScan, leadingTicks, fence_data]
  | succ n ih =>
    match s with
    | [] => simp [replaceScan, leadingTicks, fence_data]
    | c :: cs =>
      by_cases hp : fence.data.isPrefixOf (c :: cs) = true
      · have h3 := (fence_isPrefixOf_iff (c :: cs)).mp hp
        have hlen : fence.data.length - 1 = 2 := by rw [fence_data]; rfl
        have hstep : replaceScan fence.data [] 0 (c :: cs) =
            replaceScan fence.data [] 0 (cs.drop 2) := by
          rw [replaceScan, if_pos hp, hlen, replaceScan_skip]; simp
        rw [hstep]
        match cs, hn, h3 with
        | a :: b :: t, hn, h3 =>
          have hc : c = backtick := by
            by_contra h; simp [leadingTicks, h] at h3
          have ha : a = backtick := by
            by_contra h; simp [leadingTicks, hc, h] at h3
          have hb : b = backtick := by
            by_contra h; simp [leadingTicks, hc, ha, h] at h3
          have := ih t (by simp at hn; omega)
          simp only [List.drop_succ_cons, List.drop_zero]
          refine ⟨this.1, ?_⟩
          rw [this.2]
          simp only [leadingTicks, hc, ha, hb, if_true]
          omega
        | [a], _, h3 =>
          exfalso; simp only [leadingTicks] at h3; split_ifs at h3 <;> omega
        | [], _, h3 =>
          exfalso; simp only [leadingTicks] at h3; split_ifs at h3 <;> omega
      · have hlt : leadingTicks (c :: cs) < 3 := by
          by_contra h
          exact hp ((fence_isPrefixOf_iff _).mpr (by omega))
        have hstep : replaceScan fence.data [] 0 (c :: cs) =
            c :: replaceScan fence.data [] 0 cs := by
          rw [replaceScan, if_neg hp]
        have hcs := ih cs (by simp at hn; omega)
        have hlead : leadingTicks (c :: replaceScan fence.data [] 0 cs) =
            leadingTicks (c :: cs) % 3 := by
          by_cases hc : c = backtick
          · simp only [leadingTicks, hc, if_true] at hlt ⊢
            rw [hcs.2, Nat.mod_eq_of_lt (by omega : leadingTicks cs < 3),
              Nat.mod_eq_of_lt (by omega)]
          · simp [leadingTicks, hc]
        rw [hstep]
        refine ⟨?_, hlead⟩
        intro hin
        rcases List.infix_cons_iff.mp hin with hpre | hin2
        · have := (fence_prefix_iff _).mp hpre
          rw [hlead] at this
          have := Nat.mod_lt (leadingTicks (c :: cs)) (by decide : 3 > 0)
          omega
        · exact hcs.1 hin2

/-- A pattern that starts with a character the text does not hold is not
found: the scan returns the text. -/
theorem replaceScan_not_mem (b : Char) (old new s : List Char) (hb : b ∉ s) :
    replaceScan (b :: old) new 0 s = s := by
  induction s with
  | nil => simp [replaceScan]
  | cons c cs ih =>
    have hc : ¬ b = c := fun h => hb (by simp [h])
    have hcs : b ∉ cs := fun h => hb (by simp [h])
    simp [replaceScan, List.isPrefixOf, hc, ih hcs]

theorem trimSpaceChars_within (s : List Char) : trimSpaceChars s <:+: s :=
  (List.rdropWhile_prefix _ _).isInfix.trans (List.dropWhile_suffix _).isInfix

theorem trimSpaceChars_head (s : List Char) (c : Char)
    (h : (trimSpaceChars s).head? = some c) : isSpace c = false := by
  unfold trimSpaceChars at h
  have hpre := List.rdropWhile_prefix isSpace (s.dropWhile isSpace)
  have hd := List.head?_dropWhile_not isSpace s
  obtain ⟨t, ht⟩ := hpre
  cases hr : List.rdropWhile isSpace (List.dropWhile isSpace s) with
  | nil => rw [hr] at h; simp at h
  | cons x xs =>
    rw [hr] at h ht
    simp at h
    rw [← ht] at hd
    simp at hd
    rw [← h]; exact hd

theorem trimSpaceChars_getLast (s : List Char) (c : Char)
    (h : (trimSpaceChars s).getLast? = some c) : isSpace c = false := by
  unfold trimSpaceChars List.rdropWhile at h
  rw [List.getLast?_reverse] at h
  have hd := List.head?_dropWhile_not isSpace (s.dropWhile isSpace).reverse
  rw [h] at hd
  exact hd

/-! ## The recursion bound of the parser is never reached -/

theorem skipSpace_length (s : List Char) : (skipSpace s).length ≤ s.length :=
  (List.dropWhile_suffix _).length_le

theorem scanString_cons (c : Char) (cs : List Char) :
    scanString (c :: cs) =
      if c = '"' then .ok ([], cs)
      else if c = '\\' then
        match cs with
        | [] => .error .invalidText
        | e :: cs1 =>
          if e = 'u' then
            match cs1 with
            | h1 :: h2 :: h3 :: h4 :: cs2 =>
              match hexVal h1, hexVal h2, hexVal h3, hexVal h4 with
              | some a, some b, some c3, some d =>
                match scanString cs2 with
                | .ok (ps, rest) =>
                  .ok (.unit (((a * 16 + b) * 16 + c3) * 16 + d) :: ps, rest)
                | .error err => .error err
              | _, _, _, _ => .error .invalidText
            | _ => .error .invalidText
          else
            match simpleEscape e with
            | some ch =>
              match scanString cs1 with
              | .ok (ps, rest) => .ok (.char ch :: ps, rest)
              | .error err => .error err
            | none => .error .invalidText
      else if c.toNat < 32 then .error .invalidText
      else
        match scanString cs with
        | .ok (ps, rest) => .ok (.char c :: ps, rest)
        | .error err => .error err := by
  rw [scanString.eq_def]

theorem scanString_length (n : Nat) :
    ∀ s : List Char, s.length ≤ n →
      ∀ ps r, scanString s = .ok (ps, r) → r.length < s.length := by
  induction n with
  | zero =>
    intro s hs ps r h
    have : s = [] := List.length_eq_zero.mp (Nat.le_zero.mp hs)
    subst this
    simp [scanString] at h
  | succ n ih =>
    intro s hs ps r h
    cases s with
    | nil => simp [scanString] at h
    | cons c cs =>
      rw [scanString_cons] at h
      simp only [List.length_cons] at hs ⊢
      by_cases h1 : c = '"'
      · rw [if_pos h1] at h
        injection h with h; injection h with _ h; subst h; omega
      rw [if_neg h1] at h
      by_cases h2 : c = '\\'
      · rw [if_pos h2] at h
        cases cs with
        | nil => cases h
        | cons e cs1 =>
          simp only [List.length_cons] at hs ⊢
          simp only [] at h
          by_cases h4 : e = 'u'
          · rw [if_pos h4] at h
            match cs1, hs, h with
            | a1 :: a2 :: a3 :: a4 :: cs2, hs, h =>
              simp only [List.length_cons] at hs ⊢
              simp only [] at h
              split at h
              · cases hq : scanString cs2 with
                | error err => rw [hq] at h; cases h
                | ok pr =>
                  obtain ⟨ps0, r0⟩ := pr
                  rw [hq] at h
                  injection h with h; injection h with _ h; subst h
                  have := ih cs2 (by omega) ps0 r0 hq
                  omega
              · cases h
            | [], _, h => cases h
            | [_], _, h => cases h
            | [_, _], _, h => cases h
            | [_, _, _], _, h => cases h
          · rw [if_neg h4] at h
            split at h
            · cases hq : scanString cs1 with
              | error err => rw [hq] at h; cases h
              | ok pr =>
                obtain ⟨ps0, r0⟩ := pr
                rw [hq] at h
                injection h with h; injection h with _ h; subst h
                have := ih cs1 (by omega) ps0 r0 hq
                omega
            · cases h
      rw [if_neg h2] at h
      by_cases h3 : c.toNat < 32
      · rw [if_pos h3] at h; cases h
      rw [if_neg h3] at h
      cases hq : scanString cs with
      | error err => rw [hq] at h; cases h
      | ok pr =>
        obtain ⟨ps0, r0⟩ := pr
        rw [hq] at h
        injection h with h; injection h with _ h; subst h
        have := ih cs (by omega) ps0 r0 hq
        omega

theorem readString_length (s : List Char) (str : String) (r : List Char)
    (h : readString s = .ok (str, r)) : r.length < s.length := by
  unfold readString at h
  cases hq : scanString s with
  | error err => rw [hq] at h; cases h
  | ok pr =>
    obtain ⟨ps0, r0⟩ := pr
    rw [hq] at h
    injection h with h; injection h with _ h; subst h
    exact scanString_length _ s le_rfl ps0 r0 hq

theorem span_length (p : Char → Bool) (s : List Char) :
    (s.span p).2.length ≤ s.length := by
  rw [List.span_eq_take_drop]
  exact (List.dropWhile_suffix _).length_le

theorem splitSign_length (s : List Char) : (splitSign s).2.length ≤ s.length := by
  unfold splitSign
  cases s with
  | nil => simp
  | cons g r =>
    simp only []
    split_ifs <;> simp

theorem scanExponent_length (acc s raw r : List Char)
    (h : scanExponent acc s = .ok (raw, r)) : r.length ≤ s.length := by
  unfold scanExponent at h
  cases s with
  | nil => injection h with h; injection h with _ h; subst h; simp
  | cons e r1 =>
    simp only [] at h
    by_cases h1 : e = 'e' ∨ e = 'E'
    · rw [if_pos h1] at h
      split_ifs at h with h2
      injection h with h; injection h with _ h; subst h
      have a1 := span_length Char.isDigit (splitSign r1).2
      have a2 := splitSign_length r1
      simp only [List.length_cons]
      omega
    · rw [if_neg h1] at h
      injection h with h; injection h with _ h; subst h; simp

theorem scanFraction_length (acc s raw r : List Char)
    (h : scanFraction acc s = .ok (raw, r)) : r.length ≤ s.length := by
  unfold scanFraction at h
  cases s with
  | nil => injection h with h; injection h with _ h; subst h; simp
  | cons p r1 =>
    simp only [] at h
    by_cases h1 : p = '.'
    · rw [if_pos h1] at h
      split_ifs at h with h2
      have a1 := scanExponent_length _ _ _ _ h
      have a2 := span_length Char.isDigit r1
      simp only [List.length_cons]
      omega
    · rw [if_neg h1] at h
      exact scanExponent_length _ _ _ _ h

theorem scanInteger_length (acc s raw r : List Char)
    (h : scanInteger acc s = .ok (raw, r)) : r.length < s.length := by
  unfold scanInteger at h
  cases s with
  | nil => cases h
  | cons c r1 =>
    simp only [] at h
    simp only [List.length_cons]
    by_cases h1 : c = '0'
    · rw [if_pos h1] at h
      have := scanFraction_length _ _ _ _ h
      omega
    · rw [if_neg h1] at h
      split_ifs at h with h2
      have a1 := scanFraction_length _ _ _ _ h
      have a2 := span_length Char.isDigit r1
      omega

theorem scanNumber_length (s raw r : List Char)
    (h : scanNumber s = .ok (raw, r)) : r.length < s.length := by
  unfold scanNumber at h
  cases s with
  | nil => cases h
  | cons c r1 =>
    simp only [] at h
    split_ifs at h with h1
    · have := scanInteger_length _ _ _ _ h
      simp only [List.length_cons]; omega
    · exact scanInteger_length _ _ _ _ h

theorem scanLiteral_length (name : String) (v v2 : JValue) (s r : List Char)
    (hne : name.length ≠ 0) (hs : s ≠ [])
    (h : scanLiteral name v s = .ok (v2, r)) : r.length < s.length := by
  unfold scanLiteral at h
  split_ifs at h with h1
  injection h with h; injection h with _ h; subst h
  have : s.length ≠ 0 := fun h0 => hs (List.length_eq_zero.mp h0)
  simp only [List.length_drop]
  omega

theorem parseValue_succ (fuel depth : Nat) (c : Char) (rest : List Char) :
    parseValue (fuel + 1) depth (c :: rest) =
      if c = '{' then
        if depth + 1 > maxNestingDepth then .error .invalidText
        else
          match skipSpace rest with
          | [] => .error .invalidText
          | d :: rest2 =>
            if d = '}' then .ok (.object [], rest2)
            else
              match parseMembers fuel (depth + 1) (d :: rest2) with
              | .ok (ms, r) => .ok (.object ms, r)
              | .error err => .error err
      else if c = '[' then
        if depth + 1 > maxNestingDepth then .error .invalidText
        else
          match skipSpace rest with
          | [] => .error .invalidText
          | d :: rest2 =>
            if d = ']' then .ok (.array [], rest2)
            else
              match parseElements fuel (depth + 1) (d :: rest2) with
              | .ok (vs, r) => .ok (.array vs, r)
              | .error err => .error err
      else if c = '"' then
        match readString rest with
        | .ok (str, r) => .ok (.str str, r)
        | .error err => .error err
      else if c = 't' then scanLiteral "true" (.bool true) (c :: rest)
      else if c = 'f' then scanLiteral "false" (.bool false) (c :: rest)
      else if c = 'n' then scanLiteral "null" .null (c :: rest)
      else
        match scanNumber (c :: rest) with
        | .ok (raw, r) => .ok (.number ⟨raw⟩, r)
        | .error err => .error err := by
  rw [parseValue]

theorem parseElements_succ (fuel depth : Nat) (s : List Char) :
    parseElements (fuel + 1) depth s =
      match parseValue fuel depth s with
      | .error err => .error err
      | .ok (v, r) =>
        match skipSpace r with
        | [] => .error .invalidText
        | d :: r2 =>
          if d = ',' then
            match parseElements fuel depth (skipSpace r2) with
            | .ok (vs, r3) => .ok (v :: vs, r3)
            | .error err => .error err
          else if d = ']' then .ok ([v], r2)
          else .error .invalidText := by
  rw [parseElements]

theorem parseMembers_succ (fuel depth : Nat) (q : Char) (r : List Char) :
    parseMembers (fuel + 1) depth (q :: r) =
      if q = '"' then
        match readString r with
        | .error err => .error err
        | .ok (key, r1) =>
          match skipSpace r1 with
          | [] => .error .invalidText
          | colon :: r2 =>
            if colon = ':' then
              match parseValue fuel depth (skipSpace r2) with
              | .error err => .error err
              | .ok (v, r3) =>
                match skipSpace r3 with
                | [] => .error .invalidText
                | d :: r4 =>
                  if d = ',' then
                    match parseMembers fuel depth (skipSpace r4) with
                    | .ok (ms, r5) => .ok ((key, v) :: ms, r5)
                    | .error err => .error err
                  else if d = '}' then .ok ([(key, v)], r4)
                  else .error .invalidText
            else .error .invalidText
      else .error .invalidText := by
  rw [parseMembers]

/-- What the parser leaves is shorter than what it was given. -/
theorem parse_length (fuel : Nat) :
    (∀ depth s v r, parseValue fuel depth s = .ok (v, r) → r.length < s.length) ∧
    (∀ depth s vs r, parseElements fuel depth s = .ok (vs, r) → r.length < s.length) ∧
    (∀ depth s ms r, parseMembers fuel depth s = .ok (ms, r) → r.length < s.length) := by
  induction fuel with
  | zero =>
    refine ⟨?_, ?_, ?_⟩ <;> intro depth s v r h
    · rw [parseValue] at h; cases h
    · rw [parseElements] at h; cases h
    · rw [parseMembers] at h; cases h
  | succ fuel ih =>
    obtain ⟨ihV, ihE, ihM⟩ := ih
    refine ⟨?_, ?_, ?_⟩
    · intro depth s v r h
      cases s with
      | nil => rw [parseValue] at h; cases h
      | cons c rest =>
        rw [parseValue_succ] at h
        simp only [List.length_cons]
        have hsk := skipSpace_length rest
        by_cases h1 : c = '{'
        · rw [if_pos h1] at h
          split_ifs at h with h2
          cases hq : skipSpace rest with
          | nil => rw [hq] at h; cases h
          | cons d rest2 =>
            rw [hq] at h hsk
            simp only [List.length_cons] at hsk
            simp only [] at h
            split_ifs at h with h3
            · injection h with h; injection h with _ h; subst h; omega
            · cases hm : parseMembers fuel (depth + 1) (d :: rest2) with
              | error err => rw [hm] at h; cases h
              | ok pr =>
                obtain ⟨ms, r0⟩ := pr
                rw [hm] at h
                injection h with h; injection h with _ h; subst h
                have := ihM _ _ _ _ hm
                simp only [List.length_cons] at this
                omega
        rw [if_neg h1] at h
        by_cases h4 : c = '['
        · rw [if_pos h4] at h
          split_ifs at h with h2
          cases hq : skipSpace rest with
          | nil => rw [hq] at h; cases h
          | cons d rest2 =>
            rw [hq] at h hsk
            simp only [List.length_cons] at hsk
            simp only [] at h
            split_ifs at h with h3
            · injection h with h; injection h with _ h; subst h; omega
            · cases hm : parseElements fuel (depth + 1) (d :: rest2) with
              | error err => rw [hm] at h; cases h
              | ok pr =>
                obtain ⟨ms, r0⟩ := pr
                rw [hm] at h
                injection h with h; injection h with _ h; subst h
                have := ihE _ _ _ _ hm
                simp only [List.length_cons] at this
                omega
        rw [if_neg h4] at h
        by_cases h5 : c = '"'
        · rw [if_pos h5] at h
          cases hm : readString rest with
          | error err => rw [hm] at h; cases h
          | ok pr =>
            obtain ⟨str, r0⟩ := pr
            rw [hm] at h
            injection h with h; injection h with _ h; subst h
            have := readString_length _ _ _ hm
            omega
        rw [if_neg h5] at h
        have hlit : ∀ name v0, name.length ≠ 0 →
            scanLiteral name v0 (c :: rest) = .ok (v, r) → r.length < rest.length + 1 := by
          intro name v0 hne hl
          have := scanLiteral_length name v0 v (c :: rest) r hne (by simp) hl
          simpa using this
        by_cases h6 : c = 't'
        · rw [if_pos h6] at h; exact hlit _ _ (by decide) h
        rw [if_neg h6] at h
        by_cases h7 : c = 'f'
        · rw [if_pos h7] at h; exact hlit _ _ (by decide) h
        rw [if_neg h7] at h
        by_cases h8 : c = 'n'
        · rw [if_pos h8] at h; exact hlit _ _ (by decide) h
        rw [if_neg h8] at h
        cases hm : scanNumber (c :: rest) with
        | error err => rw [hm] at h; cases h
        | ok pr =>
          obtain ⟨raw, r0⟩ := pr
          rw [hm] at h
          injection h with h; injection h with _ h; subst h
          have := scanNumber_length _ _ _ hm
          simpa using this
    · intro depth s vs r h
      rw [parseElements_succ] at h
      cases hv : parseValue fuel depth s with
      | error err => rw [hv] at h; cases h
      | ok pr =>
        obtain ⟨v, r1⟩ := pr
        rw [hv] at h
        simp only [] at h
        have hlen := ihV _ _ _ _ hv
        have hsk := skipSpace_length r1
        cases hq : skipSpace r1 with
        | nil => rw [hq] at h; cases h
        | cons d r2 =>
          rw [hq] at h hsk
          simp only [List.length_cons] at hsk
          simp only [] at h
          by_cases h1 : d = ','
          · rw [if_pos h1] at h
            cases hm : parseElements fuel depth (skipSpace r2) with
            | error err => rw [hm] at h; cases h
            | ok pr =>
              obtain ⟨vs0, r3⟩ := pr
              rw [hm] at h
              injection h with h; injection h with _ h; subst h
              have := ihE _ _ _ _ hm
              have := skipSpace_length r2
              omega
          · rw [if_neg h1] at h
            split_ifs at h with h2
            injection h with h; injection h with _ h; subst h
            omega
    · intro depth s ms r h
      cases s with
      | nil => rw [parseMembers] at h; cases h
      | cons q r0 =>
        rw [parseMembers_succ] at h
        simp only [List.length_cons]
        split_ifs at h with h1
        cases hk : readString r0 with
        | error err => rw [hk] at h; cases h
        | ok pr =>
          obtain ⟨key, r1⟩ := pr
          rw [hk] at h
          simp only [] at h
          have hlen1 := readString_length _ _ _ hk
          have hsk1 := skipSpace_length r1
          cases hq : skipSpace r1 with
          | nil => rw [hq] at h; cases h
          | cons colon r2 =>
            rw [hq] at h hsk1
            simp only [List.length_cons] at hsk1
            simp only [] at h
            split_ifs at h with h2
            cases hv : parseValue fuel depth (skipSpace r2) with
            | error err => rw [hv] at h; cases h
            | ok pr =>
              obtain ⟨v, r3⟩ := pr
              rw [hv] at h
              simp only [] at h
              have hlen3 := ihV _ _ _ _ hv
              have hsk2 := skipSpace_length r2
              have hsk3 := skipSpace_length r3
              cases hq3 : skipSpace r3 with
              | nil => rw [hq3] at h; cases h
              | cons d r4 =>
                rw [hq3] at h hsk3
                simp only [List.length_cons] at hsk3
                simp only [] at h
                by_cases h3 : d = ','
                · rw [if_pos h3] at h
                  cases hm : parseMembers fuel depth (skipSpace r4) with
                  | error err => rw [hm] at h; cases h
                  | ok pr =>
                    obtain ⟨ms0, r5⟩ := pr
                    rw [hm] at h
                    injection h with h; injection h with _ h; subst h
                    have := ihM _ _ _ _ hm
                    have := skipSpace_length r4
                    omega
                · rw [if_neg h3] at h
                  split_ifs at h with h4
                  injection h with h; injection h with _ h; subst h
                  omega

theorem scanString_error (n : Nat) :
    ∀ s : List Char, s.length ≤ n →
      ∀ e, scanString s = .error e → e = .invalidText := by
  induction n with
  | zero =>
    intro s hs e h
    have : s = [] := List.length_eq_zero.mp (Nat.le_zero.mp hs)
    subst this
    rw [scanString] at h
    injection h with h; exact h.symm
  | succ n ih =>
    intro s hs e h
    cases s with
    | nil => rw [scanString] at h; injection h with h; exact h.symm
    | cons c cs =>
      rw [scanString_cons] at h
      simp only [List.length_cons] at hs
      by_cases h1 : c = '"'
      · rw [if_pos h1] at h; cases h
      rw [if_neg h1] at h
      by_cases h2 : c = '\\'
      · rw [if_pos h2] at h
        cases cs with
        | nil => injection h with h; exact h.symm
        | cons e1 cs1 =>
          simp only [List.length_cons] at hs
          simp only [] at h
          by_cases h4 : e1 = 'u'
          · rw [if_pos h4] at h
            match cs1, hs, h with
            | a1 :: a2 :: a3 :: a4 :: cs2, hs, h =>
              simp only [List.length_cons] at hs
              simp only [] at h
              split at h
              · cases hq : scanString cs2 with
                | error err =>
                  rw [hq] at h
                  injection h with h; subst h
                  exact ih cs2 (by omega) _ hq
                | ok pr =>
                  obtain ⟨ps0, r0⟩ := pr
                  rw [hq] at h
                  cases h
              · injection h with h; exact h.symm
            | [], _, h => injection h with h; exact h.symm
            | [_], _, h => injection h with h; exact h.symm
            | [_, _], _, h => injection h with h; exact h.symm
            | [_, _, _], _, h => injection h with h; exact h.symm
          · rw [if_neg h4] at h
            split at h
            · cases hq : scanString cs1 with
              | error err =>
                rw [hq] at h
                injection h with h; subst h
                exact ih cs1 (by omega) _ hq
              | ok pr =>
                obtain ⟨ps0, r0⟩ := pr
                rw [hq] at h
                cases h
            · injection h with h; exact h.symm
      rw [if_neg h2] at h
      by_cases h3 : c.toNat < 32
      · rw [if_pos h3] at h; injection h with h; exact h.symm
      rw [if_neg h3] at h
      cases hq : scanString cs with
      | error err =>
        rw [hq] at h
        injection h with h; subst h
        exact ih cs (by omega) _ hq
      | ok pr =>
        obtain ⟨ps0, r0⟩ := pr
        rw [hq] at h
        cases h

theorem readString_error (s : List Char) (e : JsonError)
    (h : readString s = .error e) : e = .invalidText := by
  unfold readString at h
  cases hq : scanString s with
  | error err =>
    rw [hq] at h
    injection h with h; subst h
    exact scanString_error _ s le_rfl _ hq
  | ok pr =>
    obtain ⟨ps0, r0⟩ := pr
    rw [hq] at h
    cases h

theorem scanExponent_error (acc s : List Char) (e : JsonError)
    (h : scanExponent acc s = .error e) : e = .invalidText := by
  unfold scanExponent at h
  cases s with
  | nil => cases h
  | cons c r1 =>
    simp only [] at h
    split_ifs at h
    injection h with h; exact h.symm

theorem scanFraction_error (acc s : List Char) (e : JsonError)
    (h : scanFraction acc s = .error e) : e = .invalidText := by
  unfold scanFraction at h
  cases s with
  | nil => cases h
  | cons c r1 =>
    simp only [] at h
    split_ifs at h
    · injection h with h; exact h.symm
    · exact scanExponent_error _ _ _ h
    · exact scanExponent_error _ _ _ h

theorem scanInteger_error (acc s : List Char) (e : JsonError)
    (h : scanInteger acc s = .error e) : e = .invalidText := by
  unfold scanInteger at h
  cases s with
  | nil => injection h with h; exact h.symm
  | cons c r1 =>
    simp only [] at h
    split_ifs at h
    · exact scanFraction_error _ _ _ h
    · exact scanFraction_error _ _ _ h
    · injection h with h; exact h.symm

theorem scanNumber_error (s : List Char) (e : JsonError)
    (h : scanNumber s = .error e) : e = .invalidText := by
  unfold scanNumber at h
  cases s with
  | nil => injection h with h; exact h.symm
  | cons c r1 =>
    simp only [] at h
    split_ifs at h
    · exact scanInteger_error _ _ _ h
    · exact scanInteger_error _ _ _ h

theorem scanLiteral_error (name : String) (v : JValue) (s : List Char) (e : JsonError)
    (h : scanLiteral name v s = .error e) : e = .invalidText := by
  unfold scanLiteral at h
  split_ifs at h
  injection h with h; exact h.symm

/-- With a recursion bound above twice the length of the text, the parser's
only error is `invalidText`: the bound is not reached. -/
theorem parse_fuel (fuel : Nat) :
    (∀ depth s e, 2 * s.length + 1 ≤ fuel →
      parseValue fuel depth s = .error e → e = .invalidText) ∧
    (∀ depth s e, 2 * s.length + 2 ≤ fuel →
      parseElements fuel depth s = .error e → e = .invalidText) ∧
    (∀ depth s e, 2 * s.length + 2 ≤ fuel →
      parseMembers fuel depth s = .error e → e = .invalidText) := by
  induction fuel with
  | zero =>
    refine ⟨?_, ?_, ?_⟩ <;> intro depth s e hf h <;> omega
  | succ fuel ih =>
    obtain ⟨ihV, ihE, ihM⟩ := ih
    have hlenV := (parse_length fuel).1
    refine ⟨?_, ?_, ?_⟩
    · intro depth s e hf h
      cases s with
      | nil => rw [parseValue] at h; injection h with h; exact h.symm
      | cons c rest =>
        rw [parseValue_succ] at h
        simp only [List.length_cons] at hf
        have hsk := skipSpace_length rest
        by_cases h1 : c = '{'
        · rw [if_pos h1] at h
          split_ifs at h with h2
          · injection h with h; exact h.symm
          cases hq : skipSpace rest with
          | nil => rw [hq] at h; injection h with h; exact h.symm
          | cons d rest2 =>
            rw [hq] at h hsk
            simp only [List.length_cons] at hsk
            simp only [] at h
            split_ifs at h with h3
            cases hm : parseMembers fuel (depth + 1) (d :: rest2) with
            | error err =>
              rw [hm] at h
              injection h with h; subst h
              exact ihM _ _ _ (by simp only [List.length_cons]; omega) hm
            | ok pr =>
              obtain ⟨ms, r0⟩ := pr
              rw [hm] at h
              cases h
        rw [if_neg h1] at h
        by_cases h4 : c = '['
        · rw [if_pos h4] at h
          split_ifs at h with h2
          · injection h with h; exact h.symm
          cases hq : skipSpace rest with
          | nil => rw [hq] at h; injection h with h; exact h.symm
          | cons d rest2 =>
            rw [hq] at h hsk
            simp only [List.length_cons] at hsk
            simp only [] at h
            split_ifs at h with h3
            cases hm : parseElements fuel (depth + 1) (d :: rest2) with
            | error err =>
              rw [hm] at h
              injection h with h; subst h
              exact ihE _ _ _ (by simp only [List.length_cons]; omega) hm
            | ok pr =>
              obtain ⟨ms, r0⟩ := pr
              rw [hm] at h
              cases h
        rw [if_neg h4] at h
        by_cases h5 : c = '"'
        · rw [if_pos h5] at h
          cases hm : readString rest with
          | error err =>
            rw [hm] at h
            injection h with h; subst h
            exact readString_error _ _ hm
          | ok pr =>
            obtain ⟨str, r0⟩ := pr
            rw [hm] at h
            cases h
        rw [if_neg h5] at h
        by_cases h6 : c = 't'
        · rw [if_pos h6] at h; exact scanLiteral_error _ _ _ _ h
        rw [if_neg h6] at h
        by_cases h7 : c = 'f'
        · rw [if_pos h7] at h; exact scanLiteral_error _ _ _ _ h
        rw [if_neg h7] at h
        by_cases h8 : c = 'n'
        · rw [if_pos h8] at h; exact scanLiteral_error _ _ _ _ h
        rw [if_neg h8] at h
        cases hm : scanNumber (c :: rest) with
        | error err =>
          rw [hm] at h
          injection h with h; subst h
          exact scanNumber_error _ _ hm
        | ok pr =>
          obtain ⟨raw, r0⟩ := pr
          rw [hm] at h
          cases h
    · intro depth s e hf h
      rw [parseElements_succ] at h
      cases hv : parseValue fuel depth s with
      | error err =>
        rw [hv] at h
        injection h with h; subst h
        exact ihV _ _ _ (by omega) hv
      | ok pr =>
        obtain ⟨v, r1⟩ := pr
        rw [hv] at h
        simp only [] at h
        have hlen := hlenV _ _ _ _ hv
        have hsk := skipSpace_length r1
        cases hq : skipSpace r1 with
        | nil => rw [hq] at h; injection h with h; exact h.symm
        | cons d r2 =>
          rw [hq] at h hsk
          simp only [List.length_cons] at hsk
          simp only [] at h
          by_cases h1 : d = ','
          · rw [if_pos h1] at h
            cases hm : parseElements fuel depth (skipSpace r2) with
            | error err =>
              rw [hm] at h
              injection h with h; subst h
              have := skipSpace_length r2
              exact ihE _ _ _ (by omega) hm
            | ok pr =>
              obtain ⟨vs0, r3⟩ := pr
              rw [hm] at h
              cases h
          · rw [if_neg h1] at h
            split_ifs at h with h2
            injection h with h; exact h.symm
    · intro depth s e hf h
      cases s with
      | nil => rw [parseMembers] at h; injection h with h; exact h.symm
      | cons q r0 =>
        rw [parseMembers_succ] at h
        simp only [List.length_cons] at hf
        split_ifs at h with h1
        · cases hk : readString r0 with
          | error err =>
            rw [hk] at h
            injection h with h; subst h
            exact readString_error _ _ hk
          | ok pr =>
            obtain ⟨key, r1⟩ := pr
            rw [hk] at h
            simp only [] at h
            have hlen1 := readString_length _ _ _ hk
            have hsk1 := skipSpace_length r1
            cases hq : skipSpace r1 with
            | nil => rw [hq] at h; injection h with h; exact h.symm
            | cons colon r2 =>
              rw [hq] at h hsk1
              simp only [List.length_cons] at hsk1
              simp only [] at h
              split_ifs at h with h2
              · have hsk2 := skipSpace_length r2
                cases hv : parseValue fuel depth (skipSpace r2) with
                | error err =>
                  rw [hv] at h
                  injection h with h; subst h
                  exact ihV _ _ _ (by omega) hv
                | ok pr =>
                  obtain ⟨v, r3⟩ := pr
                  rw [hv] at h
                  simp only [] at h
                  have hlen3 := hlenV _ _ _ _ hv
                  have hsk3 := skipSpace_length r3
                  cases hq3 : skipSpace r3 with
                  | nil => rw [hq3] at h; injection h with h; exact h.symm
                  | cons d r4 =>
                    rw [hq3] at h hsk3
                    simp only [List.length_cons] at hsk3
                    simp only [] at h
                    by_cases h3 : d = ','
                    · rw [if_pos h3] at h
                      cases hm : parseMembers fuel depth (skipSpace r4) with
                      | error err =>
                        rw [hm] at h
                        injection h with h; subst h
                        have := skipSpace_length r4
                        exact ihM _ _ _ (by omega) hm
                      | ok pr =>
                        obtain ⟨ms0, r5⟩ := pr
                        rw [hm] at h
                        cases h
                    · rw [if_neg h3] at h
                      split_ifs at h with h4
                      injection h with h; exact h.symm
              · injection h with h; exact h.symm
        · injection h with h; exact h.symm

/-- The parser run by `readFirstValue` and `parseDocument` never runs out of
fuel: the recursion bound `parseFuel` is above every text's need. -/
theorem parseValue_fuel (s data : List Char) (depth : Nat) (hs : s.length ≤ data.length) :
    parseValue (parseFuel data) depth s ≠ .error .outOfFuel := by
  intro h
  have := (parse_fuel (parseFuel data)).1 depth s _ (by unfold parseFuel; omega) h
  cases this

theorem readFirstValue_fuel (stream : List Char) :
    readFirstValue stream ≠ .error .outOfFuel := by
  unfold readFirstValue
  cases hq : skipSpace stream with
  | nil => simp
  | cons c s =>
    simp only []
    cases hp : parseValue (parseFuel (c :: s)) 0 (c :: s) with
    | error e =>
      simp only []
      intro h
      injection h with h
      subst h
      exact parseValue_fuel _ _ _ le_rfl hp
    | ok pr => simp

theorem parseDocument_fuel (data : List Char) :
    parseDocument data ≠ .error .outOfFuel := by
  unfold parseDocument
  cases hp : parseValue (parseFuel data) 0 (skipSpace data) with
  | error e =>
    simp only []
    intro h
    injection h with h
    subst h
    exact parseValue_fuel _ _ _ (skipSpace_length data) hp
  | ok pr =>
    simp only []
    split_ifs <;> simp

/-! ## What follows the first value of a stream does not change it -/

theorem skipSpace_append (s j : List Char) (c : Char) (r : List Char)
    (h : skipSpace s = c :: r) : skipSpace (s ++ j) = c :: (r ++ j) := by
  unfold skipSpace at h ⊢
  induction s with
  | nil => simp at h
  | cons a s ih =>
    rw [List.cons_append, List.dropWhile_cons]
    rw [List.dropWhile_cons] at h
    by_cases ha : isJsonSpace a = true
    · rw [if_pos ha] at h ⊢
      exact ih h
    · rw [if_neg ha] at h ⊢
      injection h with h5 h6
      subst h5; subst h6
      rfl

theorem scanString_append (n : Nat) :
    ∀ s : List Char, s.length ≤ n →
      ∀ ps r j, scanString s = .ok (ps, r) → scanString (s ++ j) = .ok (ps, r ++ j) := by
  induction n with
  | zero =>
    intro s hs ps r j h
    have : s = [] := List.length_eq_zero.mp (Nat.le_zero.mp hs)
    subst this
    simp [scanString] at h
  | succ n ih =>
    intro s hs ps r j h
    cases s with
    | nil => simp [scanString] at h
    | cons c cs =>
      rw [List.cons_append, scanString_cons]
      rw [scanString_cons] at h
      simp only [List.length_cons] at hs
      by_cases h1 : c = '"'
      · rw [if_pos h1] at h ⊢
        injection h with h; injection h with h5 h6; subst h5; subst h6; rfl
      rw [if_neg h1] at h ⊢
      by_cases h2 : c = '\\'
      · rw [if_pos h2] at h ⊢
        cases cs with
        | nil => cases h
        | cons e cs1 =>
          simp only [List.length_cons] at hs
          simp only [List.cons_append] at h ⊢
          by_cases h4 : e = 'u'
          · rw [if_pos h4] at h ⊢
            match cs1, hs, h with
            | a1 :: a2 :: a3 :: a4 :: cs2, hs, h =>
              simp only [List.length_cons] at hs
              simp only [List.cons_append] at h ⊢
              split at h
              · cases hq : scanString cs2 with
                | error err => rw [hq] at h; cases h
                | ok pr =>
                  obtain ⟨ps0, r0⟩ := pr
                  rw [hq] at h
                  rw [ih cs2 (by omega) ps0 r0 j hq]
                  injection h with h; injection h with h5 h6; subst h5; subst h6; rfl
              · cases h
            | [], _, h => cases h
            | [_], _, h => cases h
            | [_, _], _, h => cases h
            | [_, _, _], _, h => cases h
          · rw [if_neg h4] at h ⊢
            split at h
            · cases hq : scanString cs1 with
              | error err => rw [hq] at h; cases h
              | ok pr =>
                obtain ⟨ps0, r0⟩ := pr
                rw [hq] at h
                rw [ih cs1 (by omega) ps0 r0 j hq]
                injection h with h; injection h with h5 h6; subst h5; subst h6; rfl
            · cases h
      rw [if_neg h2] at h ⊢
      by_cases h3 : c.toNat < 32
      · rw [if_pos h3] at h; cases h
      rw [if_neg h3] at h ⊢
      cases hq : scanString cs with
      | error err => rw [hq] at h; cases h
      | ok pr =>
        obtain ⟨ps0, r0⟩ := pr
        rw [hq] at h
        rw [ih cs (by omega) ps0 r0 j hq]
        injection h with h; injection h with h5 h6; subst h5; subst h6; rfl

theorem readString_append (s j : List Char) (str : String) (r : List Char)
    (h : readString s = .ok (str, r)) : readString (s ++ j) = .ok (str, r ++ j) := by
  unfold readString at h ⊢
  cases hq : scanString s with
  | error err => rw [hq] at h; cases h
  | ok pr =>
    obtain ⟨ps0, r0⟩ := pr
    rw [hq] at h
    rw [scanString_append _ s le_rfl ps0 r0 j hq]
    injection h with h; injection h with h5 h6; subst h5; subst h6; rfl

theorem scanLiteral_append (name : String) (v v2 : JValue) (s r j : List Char)
    (h : scanLiteral name v s = .ok (v2, r)) :
    scanLiteral name v (s ++ j) = .ok (v2, r ++ j) := by
  unfold scanLiteral at h ⊢
  by_cases h1 : name.data.isPrefixOf s = true
  · rw [if_pos h1] at h
    have hp : name.data <+: s := List.isPrefixOf_iff_prefix.mp h1
    have h2 : name.data.isPrefixOf (s ++ j) = true :=
      List.isPrefixOf_iff_prefix.mpr (hp.trans (List.prefix_append s j))
    rw [if_pos h2]
    injection h with h; injection h with h5 h6; subst h5; subst h6
    have hlen : name.length ≤ s.length := hp.length_le
    rw [List.drop_append_of_le_length hlen]
  · rw [if_neg h1] at h; cases h

theorem span_append (p : Char → Bool) (s j : List Char) (h : (s.span p).2 ≠ []) :
    (s ++ j).span p = ((s.span p).1, (s.span p).2 ++ j) := by
  rw [List.span_eq_take_drop] at h ⊢
  rw [List.span_eq_take_drop]
  simp only at h ⊢
  induction s with
  | nil => simp at h
  | cons a s ih =>
    rw [List.cons_append, List.takeWhile_cons, List.dropWhile_cons, List.takeWhile_cons,
      List.dropWhile_cons]
    rw [List.dropWhile_cons] at h
    by_cases ha : p a = true
    · rw [if_pos ha] at h
      simp only [if_pos ha]
      have := ih h
      injection this with h1 h2
      rw [h1, h2]
    · simp only [if_neg ha]
      rfl

theorem splitSign_append (s j : List Char) (h : s ≠ []) :
    splitSign (s ++ j) = ((splitSign s).1, (splitSign s).2 ++ j) := by
  cases s with
  | nil => exact absurd rfl h
  | cons g r =>
    simp only [splitSign, List.cons_append]
    split_ifs <;> rfl

theorem scanExponent_append (acc s raw r j : List Char)
    (h : scanExponent acc s = .ok (raw, r)) (hr : r ≠ []) :
    scanExponent acc (s ++ j) = .ok (raw, r ++ j) := by
  cases s with
  | nil =>
    unfold scanExponent at h
    injection h with h; injection h with _ h6; exact absurd h6.symm hr
  | cons e r1 =>
    rw [List.cons_append]
    unfold scanExponent at h ⊢
    simp only [] at h ⊢
    by_cases h1 : e = 'e' ∨ e = 'E'
    · rw [if_pos h1] at h ⊢
      have hr1 : r1 ≠ [] := by
        intro h0
        subst h0
        simp [splitSign] at h
      by_cases h2 : ((splitSign r1).2.span Char.isDigit).1 = []
      · rw [if_pos h2] at h; cases h
      · rw [if_neg h2] at h
        injection h with h; injection h with h5 h6
        have hne : ((splitSign r1).2.span Char.isDigit).2 ≠ [] := by rw [h6]; exact hr
        rw [splitSign_append r1 j hr1]
        simp only []
        rw [span_append _ _ j hne]
        simp only []
        rw [if_neg h2, h5, h6]
    · rw [if_neg h1] at h ⊢
      injection h with h; injection h with h5 h6; subst h5; subst h6; rfl

theorem scanExponent_nil (acc : List Char) : scanExponent acc [] = .ok (acc, []) := rfl

theorem scanFraction_nil (acc : List Char) : scanFraction acc [] = .ok (acc, []) := rfl

theorem scanFraction_append (acc s raw r j : List Char)
    (h : scanFraction acc s = .ok (raw, r)) (hr : r ≠ []) :
    scanFraction acc (s ++ j) = .ok (raw, r ++ j) := by
  cases s with
  | nil =>
    unfold scanFraction at h
    injection h with h; injection h with _ h6; exact absurd h6.symm hr
  | cons p r1 =>
    rw [List.cons_append]
    unfold scanFraction at h ⊢
    simp only [] at h ⊢
    by_cases h1 : p = '.'
    · rw [if_pos h1] at h ⊢
      by_cases h2 : (r1.span Char.isDigit).1 = []
      · rw [if_pos h2] at h; cases h
      · rw [if_neg h2] at h
        have hne : (r1.span Char.isDigit).2 ≠ [] := by
          intro h0
          rw [h0, scanExponent_nil] at h
          injection h with h; injection h with _ h6; exact hr h6.symm
        rw [span_append _ _ j hne]
        simp only []
        rw [if_neg h2]
        exact scanExponent_append _ _ _ _ j h hr
    · rw [if_neg h1] at h ⊢
      have := scanExponent_append _ _ _ _ j h hr
      rw [List.cons_append] at this
      exact this

theorem scanInteger_append (acc s raw r j : List Char)
    (h : scanInteger acc s = .ok (raw, r)) (hr : r ≠ []) :
    scanInteger acc (s ++ j) = .ok (raw, r ++ j) := by
  cases s with
  | nil => unfold scanInteger at h; cases h
  | cons c r1 =>
    rw [List.cons_append]
    unfold scanInteger at h ⊢
    simp only [] at h ⊢
    by_cases h1 : c = '0'
    · rw [if_pos h1] at h ⊢
      exact scanFraction_append _ _ _ _ j h hr
    · rw [if_neg h1] at h ⊢
      by_cases h2 : c.isDigit = true
      · rw [if_pos h2] at h ⊢
        have hne : (r1.span Char.isDigit).2 ≠ [] := by
          intro h0
          rw [h0, scanFraction_nil] at h
          injection h with h; injection h with _ h6; exact hr h6.symm
        rw [span_append _ _ j hne]
        simp only []
        exact scanFraction_append _ _ _ _ j h hr
      · rw [if_neg h2] at h; cases h

theorem scanNumber_append (s raw r j : List Char)
    (h : scanNumber s = .ok (raw, r)) (hr : r ≠ []) :
    scanNumber (s ++ j) = .ok (raw, r ++ j) := by
  cases s with
  | nil => unfold scanNumber at h; cases h
  | cons c r1 =>
    rw [List.cons_append]
    unfold scanNumber at h ⊢
    simp only [] at h ⊢
    by_cases h1 : c = '-'
    · rw [if_pos h1] at h ⊢
      exact scanInteger_append _ _ _ _ j h hr
    · rw [if_neg h1] at h ⊢
      have := scanInteger_append _ _ _ _ j h hr
      rw [List.cons_append] at this
      exact this

theorem parseValue_nil (fuel depth : Nat) (x : JValue × List Char) :
    parseValue fuel depth [] ≠ .ok x := by
  cases fuel with
  | zero => rw [parseValue]; intro h; cases h
  | succ f => rw [parseValue]; intro h; cases h

theorem parseElements_nil (fuel depth : Nat) (x : List JValue × List Char) :
    parseElements fuel depth [] ≠ .ok x := by
  cases fuel with
  | zero => rw [parseElements]; intro h; cases h
  | succ f =>
    rw [parseElements_succ]
    cases hv : parseValue f depth [] with
    | error e => intro h; cases h
    | ok pr => exact absurd hv (parseValue_nil _ _ _)

theorem parseMembers_nil (fuel depth : Nat) (x : List (String × JValue) × List Char) :
    parseMembers fuel depth [] ≠ .ok x := by
  cases fuel with
  | zero => rw [parseMembers]; intro h; cases h
  | succ f => rw [parseMembers]; intro h; cases h

theorem skipSpace_append_of_ne (s j : List Char) (h : skipSpace s ≠ []) :
    skipSpace (s ++ j) = skipSpace s ++ j := by
  cases hq : skipSpace s with
  | nil => exact absurd hq h
  | cons c r => rw [skipSpace_append s j c r hq, List.cons_append]

/-- Text put after a value leaves the value as it is read; a number is the
exception when nothing follows it, since the text could go on with its
digits. -/
theorem parse_append (fuel : Nat) :
    (∀ depth s v r j f2, fuel ≤ f2 → parseValue fuel depth s = .ok (v, r) →
      (r ≠ [] ∨ v.isNumber = false) → parseValue f2 depth (s ++ j) = .ok (v, r ++ j)) ∧
    (∀ depth s vs r j f2, fuel ≤ f2 → parseElements fuel depth s = .ok (vs, r) →
      parseElements f2 depth (s ++ j) = .ok (vs, r ++ j)) ∧
    (∀ depth s ms r j f2, fuel ≤ f2 → parseMembers fuel depth s = .ok (ms, r) →
      parseMembers f2 depth (s ++ j) = .ok (ms, r ++ j)) := by
  induction fuel with
  | zero =>
    refine ⟨?_, ?_, ?_⟩
    · intro depth s v r j f2 _ h; rw [parseValue] at h; cases h
    · intro depth s v r j f2 _ h; rw [parseElements] at h; cases h
    · intro depth s v r j f2 _ h; rw [parseMembers] at h; cases h
  | succ fuel ih =>
    obtain ⟨ihV, ihE, ihM⟩ := ih
    refine ⟨?_, ?_, ?_⟩
    · intro depth s v r j f2 hf h hnum
      obtain ⟨f0, rfl⟩ : ∃ f0, f2 = f0 + 1 := ⟨f2 - 1, by omega⟩
      have hf0 : fuel ≤ f0 := by omega
      cases s with
      | nil => rw [parseValue] at h; cases h
      | cons c rest =>
        rw [List.cons_append, parseValue_succ]
        rw [parseValue_succ] at h
        by_cases h1 : c = '{'
        · rw [if_pos h1] at h ⊢
          by_cases h2 : depth + 1 > maxNestingDepth
          · rw [if_pos h2] at h; cases h
          rw [if_neg h2] at h ⊢
          cases hq : skipSpace rest with
          | nil => rw [hq] at h; cases h
          | cons d rest2 =>
            rw [hq] at h
            rw [skipSpace_append rest j d rest2 hq]
            simp only [] at h ⊢
            by_cases h3 : d = '}'
            · rw [if_pos h3] at h ⊢
              injection h with h; injection h with h5 h6; subst h5; subst h6; rfl
            · rw [if_neg h3] at h ⊢
              cases hm : parseMembers fuel (depth + 1) (d :: rest2) with
              | error err => rw [hm] at h; cases h
              | ok pr =>
                obtain ⟨ms, r0⟩ := pr
                rw [hm] at h
                have := ihM _ _ _ _ j f0 hf0 hm
                rw [List.cons_append] at this
                rw [this]
                injection h with h; injection h with h5 h6; subst h5; subst h6; rfl
        rw [if_neg h1] at h ⊢
        by_cases h4 : c = '['
        · rw [if_pos h4] at h ⊢
          by_cases h2 : depth + 1 > maxNestingDepth
          · rw [if_pos h2] at h; cases h
          rw [if_neg h2] at h ⊢
          cases hq : skipSpace rest with
          | nil => rw [hq] at h; cases h
          | cons d rest2 =>
            rw [hq] at h
            rw [skipSpace_append rest j d rest2 hq]
            simp only [] at h ⊢
            by_cases h3 : d = ']'
            · rw [if_pos h3] at h ⊢
              injection h with h; injection h with h5 h6; subst h5; subst h6; rfl
            · rw [if_neg h3] at h ⊢
              cases hm : parseElements fuel (depth + 1) (d :: rest2) with
              | error err => rw [hm] at h; cases h
              | ok pr =>
                obtain ⟨ms, r0⟩ := pr
                rw [hm] at h
                have := ihE _ _ _ _ j f0 hf0 hm
                rw [List.cons_append] at this
                rw [this]
                injection h with h; injection h with h5 h6; subst h5; subst h6; rfl
        rw [if_neg h4] at h ⊢
        by_cases h5 : c = '"'
        · rw [if_pos h5] at h ⊢
          cases hm : readString rest with
          | error err => rw [hm] at h; cases h
          | ok pr =>
            obtain ⟨str, r0⟩ := pr
            rw [hm] at h
            rw [readString_append _ j _ _ hm]
            injection h with h; injection h with h5 h6; subst h5; subst h6; rfl
        rw [if_neg h5] at h ⊢
        by_cases h6 : c = 't'
        · rw [if_pos h6] at h ⊢
          have := scanLiteral_append _ _ _ _ _ j h
          rw [List.cons_append] at this
          exact this
        rw [if_neg h6] at h ⊢
        by_cases h7 : c = 'f'
        · rw [if_pos h7] at h ⊢
          have := scanLiteral_append _ _ _ _ _ j h
          rw [List.cons_append] at this
          exact this
        rw [if_neg h7] at h ⊢
        by_cases h8 : c = 'n'
        · rw [if_pos h8] at h ⊢
          have := scanLiteral_append _ _ _ _ _ j h
          rw [List.cons_append] at this
          exact this
        rw [if_neg h8] at h ⊢
        cases hm : scanNumber (c :: rest) with
        | error err => rw [hm] at h; cases h
        | ok pr =>
          obtain ⟨raw, r0⟩ := pr
          rw [hm] at h
          injection h with h; injection h with h5 h6; subst h5; subst h6
          have hr : r0 ≠ [] := by
            rcases hnum with h9 | h9
            · exact h9
            · simp [JValue.isNumber] at h9
          have := scanNumber_append _ _ _ j hm hr
          rw [List.cons_append] at this
          rw [this]
    · intro depth s vs r j f2 hf h
      obtain ⟨f0, rfl⟩ : ∃ f0, f2 = f0 + 1 := ⟨f2 - 1, by omega⟩
      have hf0 : fuel ≤ f0 := by omega
      rw [parseElements_succ] at h ⊢
      cases hv : parseValue fuel depth s with
      | error err => rw [hv] at h; cases h
      | ok pr =>
        obtain ⟨v, r1⟩ := pr
        rw [hv] at h
        simp only [] at h
        cases hq : skipSpace r1 with
        | nil => rw [hq] at h; cases h
        | cons d r2 =>
          rw [hq] at h
          have hr1 : r1 ≠ [] := by
            intro h0; subst h0; simp [skipSpace] at hq
          rw [ihV _ _ _ _ j f0 hf0 hv (Or.inl hr1)]
          simp only [] at h ⊢
          rw [skipSpace_append r1 j d r2 hq]
          simp only []
          by_cases h1 : d = ','
          · rw [if_pos h1] at h ⊢
            cases hm : parseElements fuel depth (skipSpace r2) with
            | error err => rw [hm] at h; cases h
            | ok pr =>
              obtain ⟨vs0, r3⟩ := pr
              rw [hm] at h
              have hne : skipSpace r2 ≠ [] := by
                intro h0; rw [h0] at hm; exact parseElements_nil _ _ _ hm
              rw [skipSpace_append_of_ne r2 j hne, ihE _ _ _ _ j f0 hf0 hm]
              injection h with h; injection h with h5 h6; subst h5; subst h6; rfl
          · rw [if_neg h1] at h ⊢
            by_cases h2 : d = ']'
            · rw [if_pos h2] at h ⊢
              injection h with h; injection h with h5 h6; subst h5; subst h6; rfl
            · rw [if_neg h2] at h; cases h
    · intro depth s ms r j f2 hf h
      obtain ⟨f0, rfl⟩ : ∃ f0, f2 = f0 + 1 := ⟨f2 - 1, by omega⟩
      have hf0 : fuel ≤ f0 := by omega
      cases s with
      | nil => rw [parseMembers] at h; cases h
      | cons q r0 =>
        rw [List.cons_append, parseMembers_succ]
        rw [parseMembers_succ] at h
        by_cases h1 : q = '"'
        · rw [if_pos h1] at h ⊢
          cases hk : readString r0 with
          | error err => rw [hk] at h; cases h
          | ok pr =>
            obtain ⟨key, r1⟩ := pr
            rw [hk] at h
            rw [readString_append _ j _ _ hk]
            simp only [] at h ⊢
            cases hq : skipSpace r1 with
            | nil => rw [hq] at h; cases h
            | cons colon r2 =>
              rw [hq] at h
              rw [skipSpace_append r1 j colon r2 hq]
              simp only [] at h ⊢
              by_cases h2 : colon = ':'
              · rw [if_pos h2] at h ⊢
                cases hv : parseValue fuel depth (skipSpace r2) with
                | error err => rw [hv] at h; cases h
                | ok pr =>
                  obtain ⟨v, r3⟩ := pr
                  rw [hv] at h
                  simp only [] at h
                  have hne2 : skipSpace r2 ≠ [] := by
                    intro h0; rw [h0] at hv; exact parseValue_nil _ _ _ hv
                  cases hq3 : skipSpace r3 with
                  | nil => rw [hq3] at h; cases h
                  | cons d r4 =>
                    rw [hq3] at h
                    have hr3 : r3 ≠ [] := by
                      intro h0; subst h0; simp [skipSpace] at hq3
                    rw [skipSpace_append_of_ne r2 j hne2,
                      ihV _ _ _ _ j f0 hf0 hv (Or.inl hr3)]
                    simp only [] at h ⊢
                    rw [skipSpace_append r3 j d r4 hq3]
                    simp only []
                    by_cases h3 : d = ','
                    · rw [if_pos h3] at h ⊢
                      cases hm : parseMembers fuel depth (skipSpace r4) with
                      | error err => rw [hm] at h; cases h
                      | ok pr =>
                        obtain ⟨ms0, r5⟩ := pr
                        rw [hm] at h
                        have hne4 : skipSpace r4 ≠ [] := by
                          intro h0; rw [h0] at hm; exact parseMembers_nil _ _ _ hm
                        rw [skipSpace_append_of_ne r4 j hne4, ihM _ _ _ _ j f0 hf0 hm]
                        injection h with h; injection h with h5 h6; subst h5; subst h6; rfl
                    · rw [if_neg h3] at h ⊢
                      by_cases h4 : d = '}'
                      · rw [if_pos h4] at h ⊢
                        injection h with h; injection h with h5 h6; subst h5; subst h6; rfl
                      · rw [if_neg h4] at h; cases h
              · rw [if_neg h2] at h; cases h
        · rw [if_neg h1] at h; cases h

theorem readFirstValue_append (stream j : List Char) (v : JValue)
    (h : readFirstValue stream = .ok v) (hv : v.isNumber = false) :
    readFirstValue (stream ++ j) = .ok v := by
  unfold readFirstValue at h ⊢
  cases hq : skipSpace stream with
  | nil => rw [hq] at h; cases h
  | cons c s =>
    rw [hq] at h
    rw [skipSpace_append stream j c s hq]
    simp only [] at h ⊢
    cases hp : parseValue (parseFuel (c :: s)) 0 (c :: s) with
    | error e => rw [hp] at h; cases h
    | ok pr =>
      obtain ⟨v0, r0⟩ := pr
      rw [hp] at h
      injection h with h
      subst h
      have hfuel : parseFuel (c :: s) ≤ parseFuel (c :: (s ++ j)) := by
        simp only [parseFuel, List.length_cons, List.length_append]
        omega
      have := (parse_append (parseFuel (c :: s))).1 0 (c :: s) v0 r0 j _ hfuel hp (Or.inr hv)
      rw [List.cons_append] at this
      rw [this]

/-- A body that `Decode` accepts is accepted, with the same result, whatever
is put after it. -/
theorem decodeSheetRequest_append (body junk : String) (req : SheetRequest)
    (h : decodeSheetRequest body = .ok req) :
    decodeSheetRequest (body ++ junk) = .ok req := by
  unfold decodeSheetRequest at h ⊢
  cases hq : readFirstValue body.data with
  | error e => rw [hq] at h; cases h
  | ok v =>
    rw [hq] at h
    simp only [] at h
    have hv : v.isNumber = false := by
      cases v <;> first | rfl | (simp [unmarshalSheetRequest] at h)
    rw [String.data_append, readFirstValue_append _ _ v hq hv]
    exact h

/-! ## The decoder on concrete texts -/

theorem decode_escapes :
    decodeSheetRequest "\x7b\"row_data\":[\"\\u0041\\n\\\"\", \"\\ud83d\\ude00\", \"\\ud83d!\"]\x7d" =
      .ok ⟨"", ["A\n\"", "😀", "\uFFFD!"]⟩ := by
  decide

theorem decode_key_case :
    decodeSheetRequest "\x7b \"Target_Sheet\" : \"Plan\" , \"ROW_DATA\" : [ ] , \"note\" : 1 \x7d" =
      .ok ⟨"Plan", []⟩ := by
  decide

theorem decode_repeated_key :
    decodeSheetRequest "\x7b\"row_data\":[\"a\",\"b\"],\"row_data\":[null]\x7d" =
      .ok ⟨"", ["a"]⟩ := by
  decide

theorem decode_rejects :
    decodeSheetRequest "" = .error .endOfInput ∧
    decodeSheetRequest "\x7b\"row_data\":[\"a\",]\x7d" = .error .invalidText ∧
    decodeSheetRequest "[\"a\"]" = .error (.typeMismatch "array" "main.SheetRequest") ∧
    decodeSheetRequest "\x7b\"target_sheet\":7\x7d" = .error (.typeMismatch "number" "string") ∧
    jsonUnmarshalCardio "Duration 30:00, distance 5.2" = .error .invalidText ∧
    jsonUnmarshalCardio "\x7b\"duration\": \"30:00\"\x7d\x7d" = .error .invalidText := by
  decide

/-! ## `callGemini`: the cleaned text -/

/-- C10: the text `callGemini` returns on success is the response text `t`
with every "```json" removed, then every "```", then trimmed; it holds no
code-fence marker, neither starts nor ends with white space, and is `t` trimmed
when `t` holds no backtick. -/
theorem callGemini_text_clean (w : World) (img : List Nat) (t r : String)
    (hgen : w.generateContent GeminiModel prompt "image/jpeg" img = .ok t)
    (hret : (callGemini w img).1 = .ok r) :
    r = trimSpace (replaceAll (replaceAll t "```json" "") "```" "") ∧
    ¬ fence.data <:+: r.data ∧
    (∀ c, r.data.head? = some c → isSpace c = false) ∧
    (∀ c, r.data.getLast? = some c → isSpace c = false) ∧
    (backtick ∉ t.data → r = trimSpace t) := by
  have hr : r = cleanGeminiText t := by
    unfold callGemini at hret
    by_cases hkey : w.GeminiApiKey = "" ∨ stringsContains w.GeminiApiKey "PASTE_YOUR" = true
    · rw [if_pos hkey] at hret
      cases hret
    · rw [if_neg hkey] at hret
      cases hcl : w.genaiNewClient w.GeminiApiKey with
      | error e => rw [hcl] at hret; cases hret
      | ok u =>
        rw [hcl] at hret
        simp only [hgen] at hret
        injection hret with h
        exact h.symm
  subst hr
  refine ⟨rfl, ?_, ?_, ?_, ?_⟩
  · intro hin
    have h1 : (cleanGeminiText t).data =
        trimSpaceChars (replaceScan fence.data [] 0
          (replaceAllChars t.data "```json".data [])) := by
      simp [cleanGeminiText, trimSpace, replaceAll, replaceAllChars, fence]
    rw [h1] at hin
    exact (replaceScan_fence _ _ le_rfl).1 (hin.trans (trimSpaceChars_within _))
  · intro c hc
    exact trimSpaceChars_head _ c hc
  · intro c hc
    exact trimSpaceChars_getLast _ c hc
  · intro hb
    have e1 : replaceAllChars t.data "```json".data [] = t.data := by
      have h7 : "```json".data = backtick :: "``json".data := by decide
      rw [h7]
      unfold replaceAllChars
      rw [if_neg (by simp), if_neg (by simp)]
      exact replaceScan_not_mem backtick _ _ _ hb
    have e2 : replaceAllChars t.data "```".data [] = t.data := by
      have h3 : "```".data = backtick :: "``".data := by decide
      rw [h3]
      unfold replaceAllChars
      rw [if_neg (by simp), if_neg (by simp)]
      exact replaceScan_not_mem backtick _ _ _ hb
    simp [cleanGeminiText, replaceAll, trimSpace, e1, e2]

/-- C10 at a concrete answer of the AI service: a fenced JSON object. -/
theorem callGemini_text_clean_witness :
    (callGemini (worldWith "```json\n\x7b\"duration\": \"30:00\"\x7d\n```" []) [255, 216]).1 =
      .ok "\x7b\"duration\": \"30:00\"\x7d" ∧
    ¬ fence.data <:+: "\x7b\"duration\": \"30:00\"\x7d".data :=
  have h := callGemini_text_clean
    (worldWith "```json\n\x7b\"duration\": \"30:00\"\x7d\n```" []) [255, 216]
    "```json\n\x7b\"duration\": \"30:00\"\x7d\n```" "\x7b\"duration\": \"30:00\"\x7d"
    rfl (by decide)
  ⟨by decide, h.2.1⟩

/-! ## `main` -/

/-- C9, as the code has it: the listen address is ":8080" for an empty `PORT`,
the value itself when it starts with ":", and ":" followed by the value in
every other case, which covers every non-empty value made of digits only. -/
theorem listenAddr_cases (p : String) :
    (p = "" → listenAddr p = ":8080") ∧
    (p ≠ "" → numericOnly p = true → listenAddr p = ":" ++ p) ∧
    (hasPrefix p ":" = true → listenAddr p = p) ∧
    (p ≠ "" → hasPrefix p ":" = false → listenAddr p = ":" ++ p) := by
  have hcolon : ":".data = [':'] := rfl
  refine ⟨?_, ?_, ?_, ?_⟩
  · intro h; subst h; decide
  · intro hne hnum
    have hpre : hasPrefix p ":" = false := by
      obtain ⟨d⟩ := p
      cases d with
      | nil => exact absurd rfl hne
      | cons c cs =>
        simp only [numericOnly, List.all_cons, Bool.and_eq_true] at hnum
        have hc : c ≠ ':' := by
          intro h; rw [h] at hnum; exact absurd hnum.1 (by decide)
        simp [hasPrefix, hcolon, List.isPrefixOf, hc.symm]
    simp [listenAddr, hne, hpre]
  · intro hpre
    have hne : p ≠ "" := by
      intro h; subst h; exact absurd hpre (by decide)
    simp [listenAddr, hne, hpre]
  · intro hne hpre
    simp [listenAddr, hne, hpre]

/-- C9 at concrete values of `PORT`. -/
theorem listenAddr_cases_witness :
    listenAddr "" = ":8080" ∧ listenAddr "10000" = ":10000" ∧ listenAddr ":9000" = ":9000" :=
  ⟨(listenAddr_cases "").1 rfl,
   (listenAddr_cases "10000").2.1 (by decide) (by decide),
   (listenAddr_cases ":9000").2.2.1 (by decide)⟩

/-- C9 as stated fails: "localhost:8080" is not numeric-only, and it is not
left as given; a ":" is put before it. -/
theorem listenAddr_host_port_counterexample :
    numericOnly "localhost:8080" = false ∧
    listenAddr "localhost:8080" = ":localhost:8080" ∧
    listenAddr "localhost:8080" ≠ "localhost:8080" := by
  decide

/-- C8: with an empty spreadsheet ID or an empty API key `main` ends with the
fatal error before the router is built and before the server listens; the
server listens exactly when both are non-empty. -/
theorem main_requires_config (getenv : String → String) (listenError : Option String) :
    ((getenv "SpreadSheetID" = "" ∨ getenv "GeminiApiKey" = "") →
      main getenv listenError = [.fatal missingConfigMsg] ∧
      StartupEvent.newServeMux ∉ main getenv listenError ∧
      (∀ pat, StartupEvent.handleFunc pat ∉ main getenv listenError) ∧
      (∀ addr, StartupEvent.listenAndServe addr ∉ main getenv listenError)) ∧
    ((∃ addr, StartupEvent.listenAndServe addr ∈ main getenv listenError) ↔
      (getenv "SpreadSheetID" ≠ "" ∧ getenv "GeminiApiKey" ≠ "")) ∧
    ((getenv "SpreadSheetID" ≠ "" ∧ getenv "GeminiApiKey" ≠ "") →
      StartupEvent.listenAndServe (listenAddr (getenv "PORT")) ∈ main getenv listenError) := by
  by_cases h : getenv "SpreadSheetID" = "" ∨ getenv "GeminiApiKey" = ""
  · have hm : main getenv listenError = [.fatal missingConfigMsg] := by
      simp only [main, if_pos h]
    refine ⟨fun _ => ⟨hm, ?_, ?_, ?_⟩, ?_, ?_⟩
    · simp [hm]
    · simp [hm]
    · simp [hm]
    · rw [hm]
      constructor
      · rintro ⟨addr, ha⟩; simp at ha
      · rintro ⟨h1, h2⟩; rcases h with h | h
        · exact absurd h h1
        · exact absurd h h2
    · rintro ⟨h1, h2⟩; rcases h with h | h
      · exact absurd h h1
      · exact absurd h h2
  · have h2 : getenv "SpreadSheetID" ≠ "" ∧ getenv "GeminiApiKey" ≠ "" := by
      constructor
      · exact fun e => h (Or.inl e)
      · exact fun e => h (Or.inr e)
    have hin : StartupEvent.listenAndServe (listenAddr (getenv "PORT")) ∈
        main getenv listenError := by
      simp only [main, if_neg h]
      simp
    exact ⟨fun h3 => absurd h3 h, ⟨fun _ => h2, fun _ => ⟨_, hin⟩⟩, fun _ => hin⟩

/-- C8 at a concrete environment: the API key is missing. -/
theorem main_requires_config_witness :
    main (envOf [("PORT", "10000"), ("SpreadSheetID", "abc")]) none =
      [.fatal missingConfigMsg] :=
  ((main_requires_config (envOf [("PORT", "10000"), ("SpreadSheetID", "abc")]) none).1
    (Or.inr (by decide))).1

/-! ## Traces of the helpers -/

theorem savesOf_append (a b : List Event) : savesOf (a ++ b) = savesOf a ++ savesOf b := by
  simp [savesOf, List.filterMap_append]

theorem appendsOf_append (a b : List Event) :
    appendsOf (a ++ b) = appendsOf a ++ appendsOf b := by
  simp [appendsOf, List.filterMap_append]

theorem saveToGoogleSheets_saves (w : World) (s : String) (d : List String) :
    savesOf (saveToGoogleSheets w s d).2 = [(s, d)] := by
  unfold saveToGoogleSheets
  cases h : w.sheetsNewService w.CredsFile with
  | error e => simp [savesOf]
  | ok u =>
    simp only []
    split <;> simp [savesOf]

theorem sheet_range (s : String) :
    (if s = "" then "Logs" else s) ++ "!A:Z" = if s = "" then "Logs!A:Z" else s ++ "!A:Z" := by
  by_cases h : s = ""
  · subst h; decide
  · simp [h]

theorem saveToGoogleSheets_appends (w : World) (s : String) (d : List String) :
    appendsOf (saveToGoogleSheets w s d).2 =
      match w.sheetsNewService w.CredsFile with
      | .ok _ => [(w.SpreadSheetID, if s = "" then "Logs!A:Z" else s ++ "!A:Z", [d],
          "USER_ENTERED")]
      | .error _ => [] := by
  unfold saveToGoogleSheets
  cases h : w.sheetsNewService w.CredsFile with
  | error e => simp [appendsOf]
  | ok u =>
    simp only []
    split <;> simp [appendsOf, sheet_range]

theorem callGemini_saves (w : World) (img : List Nat) :
    savesOf (callGemini w img).2 = [] ∧ appendsOf (callGemini w img).2 = [] := by
  unfold callGemini
  split_ifs
  · simp [savesOf, appendsOf]
  · cases h : w.genaiNewClient w.GeminiApiKey with
    | error e => simp [savesOf, appendsOf]
    | ok u =>
      simp only []
      split <;> simp [savesOf, appendsOf]

/-! ## `handleSubmit` -/

/-- C1: when the body decodes into a `SheetRequest` with sheet `s` and row
`vs`, `saveToGoogleSheets` is called once with them; an append is sent unless
the spreadsheet session cannot be made, there is never more than one, and it
carries the single row `vs` for the range `s!A:Z`, or `Logs!A:Z` for an empty
`s`. -/
theorem handleSubmit_appends_row (w : World) (r : Request) (s : String) (vs : List String)
    (hdec : decodeSheetRequest r.body = .ok ⟨s, vs⟩) :
    savesOf (handleSubmit w r).2 = [(s, vs)] ∧
    (∀ a ∈ appendsOf (handleSubmit w r).2,
      a = (w.SpreadSheetID, (if s = "" then "Logs!A:Z" else s ++ "!A:Z"), [vs],
        "USER_ENTERED")) ∧
    (appendsOf (handleSubmit w r).2).length ≤ 1 ∧
    (w.sheetsNewService w.CredsFile = .ok () →
      appendsOf (handleSubmit w r).2 =
        [(w.SpreadSheetID, (if s = "" then "Logs!A:Z" else s ++ "!A:Z"), [vs],
          "USER_ENTERED")]) := by
  have hsave := saveToGoogleSheets_saves w s vs
  have happ := saveToGoogleSheets_appends w s vs
  have htrace : savesOf (handleSubmit w r).2 = savesOf (saveToGoogleSheets w s vs).2 ∧
      appendsOf (handleSubmit w r).2 = appendsOf (saveToGoogleSheets w s vs).2 := by
    unfold handleSubmit
    rw [hdec]
    simp only []
    cases h : (saveToGoogleSheets w s vs).1 with
    | none => simp
    | some e => simp [savesOf_append, appendsOf_append, savesOf, appendsOf]
  rw [htrace.1, htrace.2, happ]
  refine ⟨hsave, ?_, ?_, ?_⟩
  · intro a ha
    cases h : w.sheetsNewService w.CredsFile with
    | error e => rw [h] at ha; simp at ha
    | ok u => rw [h] at ha; simpa using ha
  · cases h : w.sheetsNewService w.CredsFile <;> simp
  · intro h
    rw [h]

/-- C1 at a concrete body with a named sheet and two cells. -/
theorem handleSubmit_appends_row_witness :
    appendsOf (handleSubmit (worldWith "" [])
      (bodyRequest "\x7b\"target_sheet\":\"Schedule\",\"row_data\":[\"Day 1\",\"Push\"]\x7d")).2 =
      [("sheet-1", "Schedule!A:Z", [["Day 1", "Push"]], "USER_ENTERED")] :=
  (handleSubmit_appends_row (worldWith "" [])
    (bodyRequest "\x7b\"target_sheet\":\"Schedule\",\"row_data\":[\"Day 1\",\"Push\"]\x7d")
    "Schedule" ["Day 1", "Push"] (by decide)).2.2.2 rfl

/-! ## `handleGetData` -/

theorem readFromGoogleSheets_reads (w : World) (s : String) :
    readsOf (readFromGoogleSheets w s).2 =
      match w.sheetsNewService w.CredsFile with
      | .ok _ => [(w.SpreadSheetID, s ++ "!A:Z")]
      | .error _ => [] := by
  unfold readFromGoogleSheets
  cases h : w.sheetsNewService w.CredsFile with
  | error e => simp [readsOf]
  | ok u =>
    cases hg : w.sheetsGet w.SpreadSheetID (s ++ "!A:Z") <;> simp [readsOf, hg]

theorem handleGetData_trace (w : World) (r : Request) :
    readsOf (handleGetData w r).2 =
      readsOf (readFromGoogleSheets w
        (if valuesGet r.query "sheet" = "" then "Logs" else valuesGet r.query "sheet")).2 := by
  unfold handleGetData
  simp only []
  rcases hq : readFromGoogleSheets w
    (if valuesGet r.query "sheet" = "" then "Logs" else valuesGet r.query "sheet") with ⟨res, tr⟩
  cases res <;> simp [readsOf, List.filterMap_append]

/-- C5: `handleGetData` reads the range `Logs!A:Z` when the `sheet` parameter
is absent or empty and `s!A:Z` when its value is the non-empty `s`; the rows of
a successful read are the value of the single key `data` of the response. -/
theorem handleGetData_reads_range (w : World) (r : Request) :
    (r.query.lookup "sheet" = none → valuesGet r.query "sheet" = "") ∧
    (∀ rd ∈ readsOf (handleGetData w r).2,
      rd = (w.SpreadSheetID,
        if valuesGet r.query "sheet" = "" then "Logs!A:Z"
        else valuesGet r.query "sheet" ++ "!A:Z")) ∧
    (w.sheetsNewService w.CredsFile = .ok () →
      readsOf (handleGetData w r).2 =
        [(w.SpreadSheetID,
          if valuesGet r.query "sheet" = "" then "Logs!A:Z"
          else valuesGet r.query "sheet" ++ "!A:Z")]) ∧
    (∀ rows, w.sheetsNewService w.CredsFile = .ok () →
      w.sheetsGet w.SpreadSheetID
        (if valuesGet r.query "sheet" = "" then "Logs!A:Z"
         else valuesGet r.query "sheet" ++ "!A:Z") = .ok rows →
      (handleGetData w r).1 =
        ⟨200, [("Content-Type", "application/json")], .jsonMap [("data", rows)]⟩) := by
  have hreads : readsOf (handleGetData w r).2 =
      match w.sheetsNewService w.CredsFile with
      | .ok _ => [(w.SpreadSheetID,
          if valuesGet r.query "sheet" = "" then "Logs!A:Z"
          else valuesGet r.query "sheet" ++ "!A:Z")]
      | .error _ => [] := by
    rw [handleGetData_trace, readFromGoogleSheets_reads, sheet_range]
  refine ⟨?_, ?_, ?_, ?_⟩
  · intro h
    simp [valuesGet, h]
  · intro rd hrd
    rw [hreads] at hrd
    cases h : w.sheetsNewService w.CredsFile with
    | error e => rw [h] at hrd; simp at hrd
    | ok u => rw [h] at hrd; simpa using hrd
  · intro h
    rw [hreads, h]
  · intro rows hsrv hget
    unfold handleGetData readFromGoogleSheets
    simp only [sheet_range, hsrv, hget]

/-- C5 at a concrete request: `sheet=Schedule` reads `Schedule!A:Z` and the
rows come back under `data`. -/
theorem handleGetData_reads_range_witness :
    readsOf (handleGetData (worldWith "" [[.text "Day 1", .number "3"]])
      (queryRequest [("sheet", ["Schedule"])])).2 = [("sheet-1", "Schedule!A:Z")] ∧
    (handleGetData (worldWith "" [[.text "Day 1", .number "3"]])
      (queryRequest [("sheet", ["Schedule"])])).1 =
      ⟨200, [("Content-Type", "application/json")],
        .jsonMap [("data", [[.text "Day 1", .number "3"]])]⟩ :=
  have h := handleGetData_reads_range (worldWith "" [[.text "Day 1", .number "3"]])
    (queryRequest [("sheet", ["Schedule"])])
  ⟨h.2.2.1 rfl, h.2.2.2 [[.text "Day 1", .number "3"]] rfl rfl⟩

/-! ## `handleImageAnalysis`: the error paths -/

/-- C6: when the form holds no file under `image` (or there is no form),
`handleImageAnalysis` answers 400 and calls neither `callGemini` nor
`saveToGoogleSheets`: its trace is empty. -/
theorem handleImageAnalysis_no_image (w : World) (r : Request)
    (hno : ∀ files, r.formFiles = some files →
      files.lookup "image" = none ∨ files.lookup "image" = some []) :
    handleImageAnalysis w r = (httpError "No image found" 400, []) ∧
    (handleImageAnalysis w r).1.status = 400 ∧
    geminiCallsOf (handleImageAnalysis w r).2 = [] ∧
    savesOf (handleImageAnalysis w r).2 = [] := by
  have hff : ∃ e, formFile r "image" = .error e := by
    unfold formFile
    cases hf : r.formFiles with
    | none => exact ⟨_, rfl⟩
    | some files =>
      rcases hno files hf with h | h
      · simp only [h]; exact ⟨_, rfl⟩
      · simp only [h]; exact ⟨_, rfl⟩
  obtain ⟨e, he⟩ := hff
  have hmain : handleImageAnalysis w r = (httpError "No image found" 400, []) := by
    unfold handleImageAnalysis
    rw [he]
  rw [hmain]
  exact ⟨rfl, rfl, rfl, rfl⟩

/-- C6 at a concrete request: a form whose only file is in the field `photo`. -/
theorem handleImageAnalysis_no_image_witness :
    handleImageAnalysis (worldWith "" []) ⟨"", [], some [("photo", [⟨.ok (), .ok [1, 2]⟩])]⟩ =
      (httpError "No image found" 400, []) :=
  (handleImageAnalysis_no_image (worldWith "" [])
    ⟨"", [], some [("photo", [⟨.ok (), .ok [1, 2]⟩])]⟩
    (fun files h => by
      injection h with h
      subst h
      exact Or.inl rfl)).1

/-- C7: when `callGemini` returns the error `e`, `handleImageAnalysis` answers
500 with the body "AI Error: " followed by the message of `e` (and the line
feed `http.Error` adds), and `saveToGoogleSheets` is not called. -/
theorem handleImageAnalysis_ai_error (w : World) (r : Request) (img : List Nat) (e : String)
    (himg : formFile r "image" = .ok (.ok img))
    (herr : (callGemini w img).1 = .error e) :
    (handleImageAnalysis w r).1.status = 500 ∧
    (handleImageAnalysis w r).1.body = .text (("AI Error: " ++ e) ++ "\n") ∧
    savesOf (handleImageAnalysis w r).2 = [] ∧
    appendsOf (handleImageAnalysis w r).2 = [] := by
  have hs := callGemini_saves w img
  rcases hq : callGemini w img with ⟨res, tr⟩
  rw [hq] at herr hs
  simp only at herr hs
  subst herr
  have hmain : handleImageAnalysis w r =
      (httpError ("AI Error: " ++ e) 500, tr ++ [.logged ("AI Error: " ++ e)]) := by
    unfold handleImageAnalysis
    rw [himg]
    simp only [hq]
  rw [hmain]
  refine ⟨rfl, rfl, ?_, ?_⟩
  · rw [savesOf_append, hs.1]; rfl
  · rw [appendsOf_append, hs.2]; rfl

/-- C7 at a concrete world: the AI service is out of quota. -/
theorem handleImageAnalysis_ai_error_witness :
    (handleImageAnalysis (worldAiFails "quota") (imageRequest [255, 216])).1 =
      httpError "AI Error: GenerateContent error: quota" 500 ∧
    savesOf (handleImageAnalysis (worldAiFails "quota") (imageRequest [255, 216])).2 = [] :=
  have h := handleImageAnalysis_ai_error (worldAiFails "quota") (imageRequest [255, 216])
    [255, 216] "GenerateContent error: quota" rfl (by decide)
  ⟨by decide, h.2.2.1⟩

/-! ## Storing the members of an object -/

theorem matchField_mem (fields : List String) (key f : String)
    (h : matchField fields key = some f) : f ∈ fields := by
  unfold matchField at h
  cases h1 : fields.find? (fun f => f = key) with
  | some g =>
    rw [h1] at h
    injection h with h
    subst h
    exact List.mem_of_find?_eq_some h1
  | none =>
    rw [h1] at h
    exact List.mem_of_find?_eq_some h

theorem matchField_cardio (key : String) :
    matchField cardioFields key = none ∨ matchField cardioFields key = some "duration" ∨
    matchField cardioFields key = some "distance" ∨
    matchField cardioFields key = some "calories" := by
  cases h : matchField cardioFields key with
  | none => exact Or.inl rfl
  | some f =>
    have hm := matchField_mem _ _ _ h
    simp only [cardioFields, List.mem_cons, List.mem_singleton, List.not_mem_nil, or_false] at hm
    rcases hm with h1 | h1 | h1 <;> subst h1 <;> simp

theorem storeString_error (v : JValue) (old : String) :
    (storeString v old).2 = none ↔ storable v = true := by
  cases v <;> simp [storeString, storable]

theorem storeString_str (s old : String) : storeString (.str s) old = (s, none) := rfl

theorem keepFirst_eq_none (a b : Option JsonError) :
    keepFirst a b = none ↔ a = none ∧ b = none := by
  cases a <;> simp [keepFirst]

theorem storeCardioMember_none (st : CardioState) (m : String × JValue)
    (h : matchField cardioFields m.1 = none) : storeCardioMember st m = st := by
  unfold storeCardioMember
  rw [h]

theorem storeCardioMember_duration (st : CardioState) (m : String × JValue)
    (h : matchField cardioFields m.1 = some "duration") :
    storeCardioMember st m =
      ⟨{ st.data with Duration := (storeString m.2 st.data.Duration).1 },
        keepFirst st.savedError (storeString m.2 st.data.Duration).2⟩ := by
  unfold storeCardioMember
  rw [h]
  rfl

theorem storeCardioMember_distance (st : CardioState) (m : String × JValue)
    (h : matchField cardioFields m.1 = some "distance") :
    storeCardioMember st m =
      ⟨{ st.data with Distance := (storeString m.2 st.data.Distance).1 },
        keepFirst st.savedError (storeString m.2 st.data.Distance).2⟩ := by
  unfold storeCardioMember
  rw [h]
  rfl

theorem storeCardioMember_calories (st : CardioState) (m : String × JValue)
    (h : matchField cardioFields m.1 = some "calories") :
    storeCardioMember st m =
      ⟨{ st.data with Calories := (storeString m.2 st.data.Calories).1 },
        keepFirst st.savedError (storeString m.2 st.data.Calories).2⟩ := by
  unfold storeCardioMember
  rw [h]
  rfl


/-- The members of an object stored into a `CardioData`: each field ends up
with the values of its members stored one after the other, and no error is
saved exactly when every member that has a field is a string or `null`. -/
theorem foldl_storeCardio (ms : List (String × JValue)) (st : CardioState) :
    (ms.foldl storeCardioMember st).data.Duration =
      (valuesFor cardioFields "duration" ms).foldl (fun acc v => (storeString v acc).1)
        st.data.Duration ∧
    (ms.foldl storeCardioMember st).data.Distance =
      (valuesFor cardioFields "distance" ms).foldl (fun acc v => (storeString v acc).1)
        st.data.Distance ∧
    (ms.foldl storeCardioMember st).data.Calories =
      (valuesFor cardioFields "calories" ms).foldl (fun acc v => (storeString v acc).1)
        st.data.Calories ∧
    ((ms.foldl storeCardioMember st).savedError = none ↔
      st.savedError = none ∧
      ∀ m ∈ ms, matchField cardioFields m.1 ≠ none → storable m.2 = true) := by
  induction ms generalizing st with
  | nil => simp [valuesFor]
  | cons m ms ih =>
    rw [List.foldl_cons]
    have ih2 := ih (storeCardioMember st m)
    rcases matchField_cardio m.1 with h | h | h | h
    · rw [storeCardioMember_none st m h] at ih2 ⊢
      simp only [valuesFor, List.filter_cons, h] at ih2 ⊢
      simpa [h] using ih2
    · rw [storeCardioMember_duration st m h] at ih2 ⊢
      simp only [valuesFor, List.filter_cons, h] at ih2 ⊢
      simpa [h, keepFirst_eq_none, storeString_error, and_assoc] using ih2
    · rw [storeCardioMember_distance st m h] at ih2 ⊢
      simp only [valuesFor, List.filter_cons, h] at ih2 ⊢
      simpa [h, keepFirst_eq_none, storeString_error, and_assoc] using ih2
    · rw [storeCardioMember_calories st m h] at ih2 ⊢
      simp only [valuesFor, List.filter_cons, h] at ih2 ⊢
      simpa [h, keepFirst_eq_none, storeString_error, and_assoc] using ih2

theorem unmarshalCardioData_ok_iff (v : JValue) :
    (∃ c, unmarshalCardioData v = .ok c) ↔ fitsCardio v = true := by
  cases v with
  | null => simp [unmarshalCardioData, fitsCardio]
  | bool b => simp [unmarshalCardioData, fitsCardio]
  | number n => simp [unmarshalCardioData, fitsCardio]
  | str s => simp [unmarshalCardioData, fitsCardio]
  | array xs => simp [unmarshalCardioData, fitsCardio]
  | object ms =>
    have h := (foldl_storeCardio ms ⟨⟨"", "", ""⟩, none⟩).2.2.2
    simp only [unmarshalCardioData, fitsCardio, List.all_eq_true, Bool.or_eq_true,
      decide_eq_true_eq]
    cases he : (ms.foldl storeCardioMember ⟨⟨"", "", ""⟩, none⟩).savedError with
    | none =>
      have h2 := (h.mp he).2
      refine ⟨fun _ => ?_, fun _ => ⟨_, rfl⟩⟩
      intro m hm
      by_cases hf : matchField cardioFields m.1 = none
      · exact Or.inl hf
      · exact Or.inr (h2 m hm hf)
    | some e =>
      refine ⟨fun hex => ?_, fun hall => ?_⟩
      · obtain ⟨c, hc⟩ := hex
        cases hc
      exfalso
      have : (ms.foldl storeCardioMember ⟨⟨"", "", ""⟩, none⟩).savedError = none :=
        h.mpr ⟨rfl, fun m hm hf => (hall m hm).resolve_left hf⟩
      rw [he] at this
      cases this

theorem foldl_storeString_last (vs : List JValue) (init d : String)
    (hstr : ∀ v ∈ vs, ∃ s, v = JValue.str s)
    (hlast : vs.getLast? = some (.str d)) :
    vs.foldl (fun acc v => (storeString v acc).1) init = d := by
  induction vs generalizing init with
  | nil => simp at hlast
  | cons v vs ih =>
    cases vs with
    | nil =>
      simp only [List.getLast?_singleton, Option.some.injEq] at hlast
      subst hlast
      rfl
    | cons v2 vs2 =>
      rw [List.foldl_cons]
      rw [List.getLast?_cons_cons] at hlast
      exact ih _ (fun u hu => hstr u (List.mem_cons_of_mem _ hu)) hlast

theorem mem_valuesFor (fields : List String) (f : String) (ms : List (String × JValue))
    (m : String × JValue) (hm : m ∈ ms) (hf : matchField fields m.1 = some f) :
    m.2 ∈ valuesFor fields f ms := by
  simp only [valuesFor, List.mem_map, List.mem_filter, decide_eq_true_eq]
  exact ⟨m, ⟨hm, hf⟩, rfl⟩

theorem unmarshalCardioData_fields (ms : List (String × JValue)) (d x c : String)
    (hstr : ∀ f ∈ cardioFields, ∀ v ∈ valuesFor cardioFields f ms, ∃ s, v = JValue.str s)
    (hd : (valuesFor cardioFields "duration" ms).getLast? = some (.str d))
    (hx : (valuesFor cardioFields "distance" ms).getLast? = some (.str x))
    (hc : (valuesFor cardioFields "calories" ms).getLast? = some (.str c)) :
    unmarshalCardioData (.object ms) = .ok ⟨d, x, c⟩ := by
  have h := foldl_storeCardio ms ⟨⟨"", "", ""⟩, none⟩
  rw [foldl_storeString_last _ _ d (hstr "duration" (by decide)) hd,
    foldl_storeString_last _ _ x (hstr "distance" (by decide)) hx,
    foldl_storeString_last _ _ c (hstr "calories" (by decide)) hc] at h
  obtain ⟨h1, h2, h3, h4⟩ := h
  have hnone : (ms.foldl storeCardioMember ⟨⟨"", "", ""⟩, none⟩).savedError = none := by
    refine h4.mpr ⟨rfl, ?_⟩
    intro m hm hf
    cases h0 : matchField cardioFields m.1 with
    | none => exact absurd h0 hf
    | some f =>
      obtain ⟨s, hs⟩ := hstr f (matchField_mem _ _ _ h0) m.2 (mem_valuesFor _ _ _ m hm h0)
      rw [hs]
      rfl
  simp only [unmarshalCardioData, hnone]
  congr 1
  cases hq : (ms.foldl storeCardioMember ⟨⟨"", "", ""⟩, none⟩).data with
  | mk a b c2 =>
    rw [hq] at h1 h2 h3
    simp only at h1 h2 h3
    rw [h1, h2, h3]

theorem unmarshalCardioData_no_field (ms : List (String × JValue))
    (hno : ∀ m ∈ ms, matchField cardioFields m.1 = none) :
    unmarshalCardioData (.object ms) = .ok ⟨"", "", ""⟩ := by
  have hfold : ∀ st : CardioState, ms.foldl storeCardioMember st = st := by
    induction ms with
    | nil => intro st; rfl
    | cons m ms ih =>
      intro st
      rw [List.foldl_cons, storeCardioMember_none st m (hno m (List.mem_cons_self _ _))]
      exact ih (fun u hu => hno u (List.mem_cons_of_mem _ hu)) st
  simp only [unmarshalCardioData, hfold]

theorem autoSave_ok (w : World) (t : String) (c : CardioData)
    (h : jsonUnmarshalCardio t = .ok c) :
    savesOf (autoSave w t) =
      [("Logs", ["Cardio", w.now, "AI Scan", c.Duration, c.Distance, c.Calories])] ∧
    appendsOf (autoSave w t) =
      appendsOf (saveToGoogleSheets w "Logs"
        ["Cardio", w.now, "AI Scan", c.Duration, c.Distance, c.Calories]).2 := by
  have hs := saveToGoogleSheets_saves w "Logs"
    ["Cardio", w.now, "AI Scan", c.Duration, c.Distance, c.Calories]
  unfold autoSave
  rw [h]
  simp only []
  rcases hq : saveToGoogleSheets w "Logs"
    ["Cardio", w.now, "AI Scan", c.Duration, c.Distance, c.Calories] with ⟨err, tr⟩
  rw [hq] at hs
  cases err <;> simp [savesOf_append, appendsOf_append, hs] <;> simp [savesOf, appendsOf]

theorem autoSave_error (w : World) (t : String) (e : JsonError)
    (h : jsonUnmarshalCardio t = .error e) : autoSave w t = [] := by
  unfold autoSave
  rw [h]

theorem handleImageAnalysis_ok (w : World) (r : Request) (img : List Nat) (t : String)
    (himg : formFile r "image" = .ok (.ok img))
    (hai : (callGemini w img).1 = .ok t) :
    (handleImageAnalysis w r).1 = ⟨200, [("Content-Type", "application/json")], .text t⟩ ∧
    savesOf (handleImageAnalysis w r).2 = savesOf (autoSave w t) ∧
    appendsOf (handleImageAnalysis w r).2 = appendsOf (autoSave w t) := by
  have hs := callGemini_saves w img
  rcases hq : callGemini w img with ⟨res, tr⟩
  rw [hq] at hai hs
  simp only at hai hs
  subst hai
  have hmain : handleImageAnalysis w r =
      (⟨200, [("Content-Type", "application/json")], .text t⟩, tr ++ autoSave w t) := by
    unfold handleImageAnalysis
    rw [himg]
    simp only [hq]
  rw [hmain]
  refine ⟨rfl, ?_, ?_⟩
  · rw [savesOf_append, hs.1]; rfl
  · rw [appendsOf_append, hs.2]; rfl

/-! ## `handleImageAnalysis`: the auto-save -/

/-- C3, as the code has it: when `callGemini` returns a text `t` that is a
JSON object in which every member stored into `duration`, `distance` or
`calories` is a string, and the last member stored into each is `d`, `x` and
`c`, `saveToGoogleSheets` is called exactly once, with the sheet "Logs" and the
row "Cardio", time stamp, "AI Scan", `d`, `x`, `c`; the response is 200 with
body `t` whatever the spreadsheet service answers.  A key is stored into the
field of exactly that name, else into the one equal to it when case is
ignored. -/
theorem handleImageAnalysis_saves_cardio (w : World) (r : Request) (img : List Nat)
    (t : String) (ms : List (String × JValue)) (d x c : String)
    (himg : formFile r "image" = .ok (.ok img))
    (hai : (callGemini w img).1 = .ok t)
    (hobj : parseDocument t.data = .ok (.object ms))
    (hstr : ∀ f ∈ cardioFields, ∀ v ∈ valuesFor cardioFields f ms, ∃ s, v = JValue.str s)
    (hd : (valuesFor cardioFields "duration" ms).getLast? = some (.str d))
    (hx : (valuesFor cardioFields "distance" ms).getLast? = some (.str x))
    (hc : (valuesFor cardioFields "calories" ms).getLast? = some (.str c)) :
    savesOf (handleImageAnalysis w r).2 =
      [("Logs", ["Cardio", w.now, "AI Scan", d, x, c])] ∧
    (handleImageAnalysis w r).1 =
      ⟨200, [("Content-Type", "application/json")], .text t⟩ ∧
    (∀ a ∈ appendsOf (handleImageAnalysis w r).2,
      a = (w.SpreadSheetID, "Logs!A:Z", [["Cardio", w.now, "AI Scan", d, x, c]],
        "USER_ENTERED")) ∧
    (w.sheetsNewService w.CredsFile = .ok () →
      appendsOf (handleImageAnalysis w r).2 =
        [(w.SpreadSheetID, "Logs!A:Z", [["Cardio", w.now, "AI Scan", d, x, c]],
          "USER_ENTERED")]) := by
  have hun : jsonUnmarshalCardio t = .ok ⟨d, x, c⟩ := by
    unfold jsonUnmarshalCardio
    rw [hobj]
    exact unmarshalCardioData_fields ms d x c hstr hd hx hc
  have hok := handleImageAnalysis_ok w r img t himg hai
  have hauto := autoSave_ok w t ⟨d, x, c⟩ hun
  have happ := saveToGoogleSheets_appends w "Logs" ["Cardio", w.now, "AI Scan", d, x, c]
  have hlogs : (if ("Logs" : String) = "" then "Logs!A:Z" else "Logs" ++ "!A:Z") = "Logs!A:Z" := by
    decide
  rw [hlogs] at happ
  rw [hok.2.1, hok.2.2, hauto.1, hauto.2, happ]
  refine ⟨rfl, hok.1, ?_, ?_⟩
  · intro a ha
    cases h : w.sheetsNewService w.CredsFile with
    | error e => rw [h] at ha; simp at ha
    | ok u => rw [h] at ha; simpa using ha
  · intro h
    rw [h]

/-- C3 at the text the prompt asks for, in a world whose appends fail: the row
is handed to `saveToGoogleSheets` and the response is still 200 with the text. -/
theorem handleImageAnalysis_saves_cardio_witness :
    savesOf (handleImageAnalysis (worldAppendFails cardioText) (imageRequest [255, 216])).2 =
      [("Logs", ["Cardio", "2025-01-02 03:04:05", "AI Scan", "30:00", "5.2", "300"])] ∧
    (handleImageAnalysis (worldAppendFails cardioText) (imageRequest [255, 216])).1 =
      ⟨200, [("Content-Type", "application/json")], .text cardioText⟩ :=
  have h := handleImageAnalysis_saves_cardio (worldAppendFails cardioText)
    (imageRequest [255, 216]) [255, 216] cardioText
    [("duration", .str "30:00"), ("distance", .str "5.2"), ("calories", .str "300")]
    "30:00" "5.2" "300" rfl (by decide) rfl
    (by
      intro f hf v hv
      simp only [cardioFields, List.mem_cons, List.mem_singleton, List.not_mem_nil,
        or_false] at hf
      rcases hf with hf | hf | hf
      · subst hf
        have hv2 : v ∈ [JValue.str "30:00"] := hv
        exact ⟨_, List.mem_singleton.mp hv2⟩
      · subst hf
        have hv2 : v ∈ [JValue.str "5.2"] := hv
        exact ⟨_, List.mem_singleton.mp hv2⟩
      · subst hf
        have hv2 : v ∈ [JValue.str "300"] := hv
        exact ⟨_, List.mem_singleton.mp hv2⟩)
    rfl rfl rfl
  ⟨h.1, h.2.1⟩

/-- C3 as stated fails: a JSON object with the string fields `duration` "1",
`distance` "3" and `calories` "4" that has a second member under the key
`DURATION` is saved with the value of that member, and one that has a number
under the key `Duration` is not saved at all. -/
theorem handleImageAnalysis_repeated_key_counterexample :
    parseDocument cardioTwiceText.data =
      .ok (.object [("duration", .str "1"), ("DURATION", .str "2"), ("distance", .str "3"),
        ("calories", .str "4")]) ∧
    savesOf (handleImageAnalysis (worldWith cardioTwiceText [])
      (imageRequest [255, 216])).2 =
      [("Logs", ["Cardio", "2025-01-02 03:04:05", "AI Scan", "2", "3", "4"])] ∧
    parseDocument cardioNumberText.data =
      .ok (.object [("duration", .str "1"), ("distance", .str "3"), ("calories", .str "4"),
        ("Duration", .number "5")]) ∧
    savesOf (handleImageAnalysis (worldWith cardioNumberText [])
      (imageRequest [255, 216])).2 = [] :=
  ⟨rfl, by decide, rfl, by decide⟩

/-- C4, as the code has it: the response is always 200 with body `t`; when
`json.Unmarshal` returns an error for `t` there is no call to
`saveToGoogleSheets`, and only then; it returns an error exactly when `t` is
not one JSON text or its value is neither `null` nor an object whose members
stored into the three fields are strings or `null`.  When it returns no error
the row saved holds the three fields it has filled; for `null` and for an
object none of whose keys is stored into a field they are empty.  A text that
is no JSON, and an object with a member stored into a field that is neither a
string nor `null`, give no save. -/
theorem handleImageAnalysis_unmarshal_error (w : World) (r : Request) (img : List Nat)
    (t : String)
    (himg : formFile r "image" = .ok (.ok img))
    (hai : (callGemini w img).1 = .ok t) :
    (handleImageAnalysis w r).1 =
      ⟨200, [("Content-Type", "application/json")], .text t⟩ ∧
    ((∃ e, jsonUnmarshalCardio t = .error e) →
      savesOf (handleImageAnalysis w r).2 = [] ∧ appendsOf (handleImageAnalysis w r).2 = []) ∧
    (savesOf (handleImageAnalysis w r).2 = [] → ∃ e, jsonUnmarshalCardio t = .error e) ∧
    ((∃ e, jsonUnmarshalCardio t = .error e) ↔
      ∀ v, parseDocument t.data = .ok v → fitsCardio v = false) ∧
    (∀ c, jsonUnmarshalCardio t = .ok c →
      savesOf (handleImageAnalysis w r).2 =
        [("Logs", ["Cardio", w.now, "AI Scan", c.Duration, c.Distance, c.Calories])]) ∧
    (∀ v, parseDocument t.data = .ok v →
      (v = .null ∨ ∃ ms, v = .object ms ∧ ∀ m ∈ ms, matchField cardioFields m.1 = none) →
      savesOf (handleImageAnalysis w r).2 =
        [("Logs", ["Cardio", w.now, "AI Scan", "", "", ""])]) ∧
    (∀ e, parseDocument t.data = .error e → savesOf (handleImageAnalysis w r).2 = []) ∧
    (∀ ms m, parseDocument t.data = .ok (.object ms) → m ∈ ms →
      matchField cardioFields m.1 ≠ none → storable m.2 = false →
      savesOf (handleImageAnalysis w r).2 = []) := by
  have hok := handleImageAnalysis_ok w r img t himg hai
  have hnosave : (∃ e, jsonUnmarshalCardio t = .error e) →
      savesOf (handleImageAnalysis w r).2 = [] := by
    rintro ⟨e, he⟩
    rw [hok.2.1, autoSave_error w t e he]
    rfl
  refine ⟨hok.1, ?_, ?_, ?_, ?_, ?_, ?_, ?_⟩
  · rintro ⟨e, he⟩
    rw [hok.2.1, hok.2.2, autoSave_error w t e he]
    exact ⟨rfl, rfl⟩
  · intro hs
    cases hu : jsonUnmarshalCardio t with
    | error e => exact ⟨e, rfl⟩
    | ok c =>
      rw [hok.2.1, (autoSave_ok w t c hu).1] at hs
      cases hs
  · unfold jsonUnmarshalCardio
    cases hp : parseDocument t.data with
    | error e =>
      simp only []
      exact ⟨fun _ v hv => (by cases hv), fun _ => ⟨e, rfl⟩⟩
    | ok v =>
      simp only []
      have hiff := unmarshalCardioData_ok_iff v
      constructor
      · rintro ⟨e, he⟩ v2 hv2
        injection hv2 with hv2
        subst hv2
        cases hf : fitsCardio v with
        | false => rfl
        | true =>
          obtain ⟨c, hc⟩ := hiff.mpr hf
          rw [hc] at he
          cases he
      · intro hall
        have hf := hall v rfl
        cases hu : unmarshalCardioData v with
        | error e => exact ⟨e, rfl⟩
        | ok c =>
          have := hiff.mp ⟨c, hu⟩
          rw [hf] at this
          cases this
  · intro c hc
    rw [hok.2.1, (autoSave_ok w t c hc).1]
  · intro v hv hshape
    have hun : jsonUnmarshalCardio t = .ok ⟨"", "", ""⟩ := by
      unfold jsonUnmarshalCardio
      rw [hv]
      rcases hshape with h0 | ⟨ms, h0, hno⟩
      · subst h0; rfl
      · subst h0; exact unmarshalCardioData_no_field ms hno
    rw [hok.2.1, (autoSave_ok w t _ hun).1]
  · intro e he
    refine hnosave ⟨e, ?_⟩
    unfold jsonUnmarshalCardio
    rw [he]
  · intro ms m hp hm hf hbad
    cases hu : jsonUnmarshalCardio t with
    | error e => exact hnosave ⟨e, hu⟩
    | ok c =>
      exfalso
      unfold jsonUnmarshalCardio at hu
      rw [hp] at hu
      simp only [] at hu
      have hfit := (unmarshalCardioData_ok_iff (.object ms)).mp ⟨c, hu⟩
      simp only [fitsCardio, List.all_eq_true, Bool.or_eq_true, decide_eq_true_eq] at hfit
      rcases hfit m hm with h1 | h1
      · exact hf h1
      · rw [h1] at hbad; cases hbad

/-- C4 at a number where a string is expected: no save, 200 with the text; at
an object without a key of the three fields: a save with three empty cells; at
plain prose: no save. -/
theorem handleImageAnalysis_unmarshal_error_witness :
    savesOf (handleImageAnalysis (worldWith "\x7b\"duration\": 30\x7d" [])
      (imageRequest [255, 216])).2 = [] ∧
    (handleImageAnalysis (worldWith "\x7b\"duration\": 30\x7d" [])
      (imageRequest [255, 216])).1 =
      ⟨200, [("Content-Type", "application/json")], .text "\x7b\"duration\": 30\x7d"⟩ ∧
    savesOf (handleImageAnalysis (worldWith "\x7b\"steps\": 4000\x7d" [])
      (imageRequest [255, 216])).2 =
      [("Logs", ["Cardio", "2025-01-02 03:04:05", "AI Scan", "", "", ""])] ∧
    savesOf (handleImageAnalysis (worldWith "Duration 30:00, distance 5.2" [])
      (imageRequest [255, 216])).2 = [] :=
  have h := handleImageAnalysis_unmarshal_error (worldWith "\x7b\"duration\": 30\x7d" [])
    (imageRequest [255, 216]) [255, 216] "\x7b\"duration\": 30\x7d" rfl (by decide)
  have h3 := handleImageAnalysis_unmarshal_error
    (worldWith "Duration 30:00, distance 5.2" [])
    (imageRequest [255, 216]) [255, 216] "Duration 30:00, distance 5.2" rfl (by decide)
  have h2 := handleImageAnalysis_unmarshal_error (worldWith "\x7b\"steps\": 4000\x7d" [])
    (imageRequest [255, 216]) [255, 216] "\x7b\"steps\": 4000\x7d" rfl (by decide)
  ⟨(h.2.1 ⟨.typeMismatch "number" "string", by decide⟩).1, h.1,
   h2.2.2.2.2.2.1 (.object [("steps", .number "4000")]) rfl
     (Or.inr ⟨_, rfl, fun m hm => by
       rw [List.mem_singleton.mp hm]
       rfl⟩),
   (h3.2.1 ⟨.invalidText, by decide⟩).1⟩

/-- C4 as stated fails: for the texts `{}` and `null` and for an object whose
only key is `steps`, `json.Unmarshal` returns no error and `saveToGoogleSheets`
is called with three empty cells. -/
theorem handleImageAnalysis_empty_object_counterexample :
    jsonUnmarshalCardio "\x7b\x7d" = .ok ⟨"", "", ""⟩ ∧
    savesOf (handleImageAnalysis (worldWith "\x7b\x7d" []) (imageRequest [255, 216])).2 =
      [("Logs", ["Cardio", "2025-01-02 03:04:05", "AI Scan", "", "", ""])] ∧
    jsonUnmarshalCardio "null" = .ok ⟨"", "", ""⟩ ∧
    savesOf (handleImageAnalysis (worldWith "null" []) (imageRequest [255, 216])).2 =
      [("Logs", ["Cardio", "2025-01-02 03:04:05", "AI Scan", "", "", ""])] ∧
    savesOf (handleImageAnalysis (worldWith "\x7b\"steps\": 4000\x7d" [])
      (imageRequest [255, 216])).2 =
      [("Logs", ["Cardio", "2025-01-02 03:04:05", "AI Scan", "", "", ""])] := by
  decide

/-! ## `handleSubmit`: the body that is not accepted -/

theorem matchField_sheetRequest (key : String) :
    matchField sheetRequestFields key = none ∨
    matchField sheetRequestFields key = some "target_sheet" ∨
    matchField sheetRequestFields key = some "row_data" := by
  cases h : matchField sheetRequestFields key with
  | none => exact Or.inl rfl
  | some f =>
    have hm := matchField_mem _ _ _ h
    simp only [sheetRequestFields, List.mem_cons, List.mem_singleton, List.not_mem_nil,
      or_false] at hm
    rcases hm with h1 | h1 <;> subst h1 <;> simp

theorem storeStringCells_error (items : List JValue) (cells : List String) :
    (storeStringCells items cells).2 = none ↔ items.all storable = true := by
  induction items generalizing cells with
  | nil => simp [storeStringCells]
  | cons v vs ih =>
    simp only [storeStringCells, keepFirst_eq_none, storeString_error, ih, List.all_cons,
      Bool.and_eq_true]

theorem storeStringSlice_error (v : JValue) (old : StringSlice) :
    (storeStringSlice v old).2 = none ↔ sliceStorable v = true := by
  cases v with
  | array items =>
    cases items with
    | nil => simp [storeStringSlice, sliceStorable]
    | cons x xs =>
      simp only [storeStringSlice, sliceStorable]
      exact storeStringCells_error (x :: xs) _
  | null => simp [storeStringSlice, sliceStorable]
  | bool b => simp [storeStringSlice, sliceStorable]
  | number n => simp [storeStringSlice, sliceStorable]
  | str s => simp [storeStringSlice, sliceStorable]
  | object ms => simp [storeStringSlice, sliceStorable]

theorem storeSheetRequestMember_error (st : SheetRequestState) (m : String × JValue) :
    (storeSheetRequestMember st m).savedError = none ↔
      st.savedError = none ∧ memberFitsSheetRequest m = true := by
  rcases matchField_sheetRequest m.1 with h | h | h
  · have e : storeSheetRequestMember st m = st := by
      unfold storeSheetRequestMember; rw [h]
    rw [e]
    simp [memberFitsSheetRequest, h]
  · have e : storeSheetRequestMember st m =
        { st with TargetSheet := (storeString m.2 st.TargetSheet).1,
                  savedError := keepFirst st.savedError (storeString m.2 st.TargetSheet).2 } := by
      unfold storeSheetRequestMember; rw [h]; rfl
    rw [e]
    simp [memberFitsSheetRequest, h, keepFirst_eq_none, storeString_error]
  · have e : storeSheetRequestMember st m =
        { st with RowData := (storeStringSlice m.2 st.RowData).1,
                  savedError := keepFirst st.savedError (storeStringSlice m.2 st.RowData).2 } := by
      unfold storeSheetRequestMember; rw [h]; rfl
    rw [e]
    simp [memberFitsSheetRequest, h, keepFirst_eq_none, storeStringSlice_error]

theorem foldl_storeSheetRequest_error (ms : List (String × JValue)) (st : SheetRequestState) :
    (ms.foldl storeSheetRequestMember st).savedError = none ↔
      st.savedError = none ∧ ms.all memberFitsSheetRequest = true := by
  induction ms generalizing st with
  | nil => simp
  | cons m ms ih =>
    rw [List.foldl_cons, ih, storeSheetRequestMember_error]
    simp [and_assoc]

theorem unmarshalSheetRequest_ok_iff (v : JValue) :
    (∃ req, unmarshalSheetRequest v = .ok req) ↔ fitsSheetRequest v = true := by
  cases v with
  | null => simp [unmarshalSheetRequest, fitsSheetRequest]
  | bool b => simp [unmarshalSheetRequest, fitsSheetRequest]
  | number n => simp [unmarshalSheetRequest, fitsSheetRequest]
  | str s => simp [unmarshalSheetRequest, fitsSheetRequest]
  | array xs => simp [unmarshalSheetRequest, fitsSheetRequest]
  | object ms =>
    have h := foldl_storeSheetRequest_error ms ⟨"", ⟨[], []⟩, none⟩
    simp only [unmarshalSheetRequest, fitsSheetRequest]
    cases he : (ms.foldl storeSheetRequestMember ⟨"", ⟨[], []⟩, none⟩).savedError with
    | none =>
      exact ⟨fun _ => (h.mp he).2, fun _ => ⟨_, rfl⟩⟩
    | some e =>
      refine ⟨fun hex => ?_, fun hall => ?_⟩
      · obtain ⟨c, hc⟩ := hex
        cases hc
      · exfalso
        have := h.mpr ⟨rfl, hall⟩
        rw [he] at this
        cases this

theorem decodeSheetRequest_error_iff (body : String) :
    (∃ e, decodeSheetRequest body = .error e) ↔
      ∀ v, readFirstValue body.data = .ok v → fitsSheetRequest v = false := by
  unfold decodeSheetRequest
  cases hp : readFirstValue body.data with
  | error e =>
    exact ⟨fun _ v hv => (by cases hv), fun _ => ⟨e, rfl⟩⟩
  | ok v =>
    simp only []
    have hiff := unmarshalSheetRequest_ok_iff v
    constructor
    · rintro ⟨e, he⟩ v2 hv2
      injection hv2 with hv2
      subst hv2
      cases hf : fitsSheetRequest v with
      | false => rfl
      | true =>
        obtain ⟨c, hc⟩ := hiff.mpr hf
        rw [hc] at he
        cases he
    · intro hall
      have hf := hall v rfl
      cases hu : unmarshalSheetRequest v with
      | error e => exact ⟨e, rfl⟩
      | ok c =>
        have := hiff.mp ⟨c, hu⟩
        rw [hf] at this
        cases this

theorem storeString_fresh (v : JValue) : (storeString v "").1 = cellText v := by
  cases v <;> rfl

theorem storeStringCells_fresh (items : List JValue) :
    (storeStringCells items []).1 = items.map cellText := by
  induction items with
  | nil => rfl
  | cons v vs ih =>
    simp only [storeStringCells, List.headD_nil, List.tail_nil, List.map_cons, ih,
      storeString_fresh]

theorem storeStringSlice_fresh (items : List JValue) :
    (storeStringSlice (.array items) ⟨[], []⟩).1.elems = items.map cellText := by
  cases items with
  | nil => rfl
  | cons x xs =>
    simp only [storeStringSlice, List.append_nil]
    exact storeStringCells_fresh (x :: xs)

theorem foldl_storeSheetRequest_rowData (ms : List (String × JValue))
    (st : SheetRequestState) :
    (ms.foldl storeSheetRequestMember st).RowData =
      (valuesFor sheetRequestFields "row_data" ms).foldl
        (fun acc v => (storeStringSlice v acc).1) st.RowData := by
  induction ms generalizing st with
  | nil => rfl
  | cons m ms ih =>
    rw [List.foldl_cons, ih]
    rcases matchField_sheetRequest m.1 with h | h | h
    · have e : storeSheetRequestMember st m = st := by
        unfold storeSheetRequestMember; rw [h]
      rw [e]
      simp [valuesFor, List.filter_cons, h]
    · have e : storeSheetRequestMember st m =
          { st with TargetSheet := (storeString m.2 st.TargetSheet).1,
                    savedError := keepFirst st.savedError (storeString m.2 st.TargetSheet).2 } := by
        unfold storeSheetRequestMember; rw [h]; rfl
      rw [e]
      simp [valuesFor, List.filter_cons, h]
    · have e : storeSheetRequestMember st m =
          { st with RowData := (storeStringSlice m.2 st.RowData).1,
                    savedError := keepFirst st.savedError (storeStringSlice m.2 st.RowData).2 } := by
        unfold storeSheetRequestMember; rw [h]; rfl
      rw [e]
      simp [valuesFor, List.filter_cons, h]

theorem unmarshalSheetRequest_row (ms : List (String × JValue)) (items : List JValue)
    (hfit : fitsSheetRequest (.object ms) = true)
    (hrow : valuesFor sheetRequestFields "row_data" ms = [.array items]) :
    ∃ s, unmarshalSheetRequest (.object ms) = .ok ⟨s, items.map cellText⟩ := by
  have herr := (foldl_storeSheetRequest_error ms ⟨"", ⟨[], []⟩, none⟩).mpr ⟨rfl, hfit⟩
  have hdata := foldl_storeSheetRequest_rowData ms ⟨"", ⟨[], []⟩, none⟩
  rw [hrow] at hdata
  simp only [List.foldl_cons, List.foldl_nil] at hdata
  refine ⟨(ms.foldl storeSheetRequestMember ⟨"", ⟨[], []⟩, none⟩).TargetSheet, ?_⟩
  simp only [unmarshalSheetRequest, herr, hdata, storeStringSlice_fresh]

theorem handleSubmit_saves (w : World) (r : Request) (req : SheetRequest)
    (hdec : decodeSheetRequest r.body = .ok req) :
    savesOf (handleSubmit w r).2 = [(req.TargetSheet, req.RowData)] := by
  have hsave := saveToGoogleSheets_saves w req.TargetSheet req.RowData
  unfold handleSubmit
  rw [hdec]
  simp only []
  rcases hq : saveToGoogleSheets w req.TargetSheet req.RowData with ⟨err, tr⟩
  rw [hq] at hsave
  cases err with
  | none => exact hsave
  | some e =>
    simp only [savesOf_append]
    simp only at hsave
    rw [hsave]
    rfl

/-- C2, as the code has it: `handleSubmit` answers 400 and makes no call at all
exactly when `Decode` returns an error, which it does exactly when no first
JSON value can be read from the body or that value is neither `null` nor an
object in which every member stored into `target_sheet` is a string or `null`
and every member stored into `row_data` is `null` or an array of strings and
`null`s.  What follows the first value in the body is not looked at: an
accepted body stays accepted, with the same outcome, whatever is put after it.
A `null` in `row_data` is no error: when the object has one member stored into
`row_data`, an array, the row saved is that array with an empty cell for each
`null`.  A body without a readable first value, and one whose `row_data` array
holds a value that is neither a string nor `null`, get the 400. -/
theorem handleSubmit_bad_request (w : World) (r : Request) :
    ((∃ e, decodeSheetRequest r.body = .error e) →
      handleSubmit w r = (httpError "Invalid JSON" 400, []) ∧
      (handleSubmit w r).1.status = 400 ∧ savesOf (handleSubmit w r).2 = []) ∧
    ((handleSubmit w r).1.status = 400 → ∃ e, decodeSheetRequest r.body = .error e) ∧
    ((∃ e, decodeSheetRequest r.body = .error e) ↔
      ∀ v, readFirstValue r.body.data = .ok v → fitsSheetRequest v = false) ∧
    (∀ req junk, decodeSheetRequest r.body = .ok req →
      handleSubmit w { r with body := r.body ++ junk } = handleSubmit w r) ∧
    (∀ ms items, readFirstValue r.body.data = .ok (.object ms) →
      fitsSheetRequest (.object ms) = true →
      valuesFor sheetRequestFields "row_data" ms = [.array items] →
      ∃ s, decodeSheetRequest r.body = .ok ⟨s, items.map cellText⟩ ∧
        savesOf (handleSubmit w r).2 = [(s, items.map cellText)]) ∧
    (∀ e, readFirstValue r.body.data = .error e →
      handleSubmit w r = (httpError "Invalid JSON" 400, [])) ∧
    (∀ ms key items x, readFirstValue r.body.data = .ok (.object ms) →
      (key, JValue.array items) ∈ ms →
      matchField sheetRequestFields key = some "row_data" →
      x ∈ items → storable x = false →
      handleSubmit w r = (httpError "Invalid JSON" 400, [])) := by
  have h400 : (∃ e, decodeSheetRequest r.body = .error e) →
      handleSubmit w r = (httpError "Invalid JSON" 400, []) := by
    rintro ⟨e, he⟩
    unfold handleSubmit
    rw [he]
  refine ⟨?_, ?_, decodeSheetRequest_error_iff r.body, ?_, ?_, ?_, ?_⟩
  · rintro ⟨e, he⟩
    have hmain : handleSubmit w r = (httpError "Invalid JSON" 400, []) := by
      unfold handleSubmit
      rw [he]
    rw [hmain]
    exact ⟨rfl, rfl, rfl⟩
  · intro hst
    cases hd : decodeSheetRequest r.body with
    | error e => exact ⟨e, rfl⟩
    | ok req =>
      exfalso
      unfold handleSubmit at hst
      rw [hd] at hst
      simp only [] at hst
      rcases hq : saveToGoogleSheets w req.TargetSheet req.RowData with ⟨err, tr⟩
      rw [hq] at hst
      cases err with
      | none => simp at hst
      | some e => simp [httpError] at hst
  · intro req junk hd
    unfold handleSubmit
    simp only []
    rw [decodeSheetRequest_append _ junk _ hd, hd]
  · intro ms items hread hfit hrow
    obtain ⟨s, hs⟩ := unmarshalSheetRequest_row ms items hfit hrow
    have hdec : decodeSheetRequest r.body = .ok ⟨s, items.map cellText⟩ := by
      unfold decodeSheetRequest
      rw [hread]
      exact hs
    exact ⟨s, hdec, handleSubmit_saves w r _ hdec⟩
  · intro e he
    exact h400 ((decodeSheetRequest_error_iff r.body).mpr (fun v hv => by
      rw [he] at hv; cases hv))
  · intro ms key items x hread hmem hkey hx hbad
    refine h400 ((decodeSheetRequest_error_iff r.body).mpr (fun v hv => ?_))
    rw [hread] at hv
    injection hv with hv
    subst hv
    cases hf : fitsSheetRequest (.object ms) with
    | false => rfl
    | true =>
      exfalso
      simp only [fitsSheetRequest, List.all_eq_true] at hf
      have hm := hf (key, JValue.array items) hmem
      have hne : ¬ (some "row_data" = some "target_sheet") := by decide
      simp only [memberFitsSheetRequest, hkey, if_neg hne, if_true, sliceStorable,
        List.all_eq_true] at hm
      rw [hm x hx] at hbad
      cases hbad

/-- C2 at concrete bodies: a number in `row_data`, a body that ends inside the
value, a body that is no JSON at all, and a `row_data` with a `null`, which is
accepted. -/
theorem handleSubmit_bad_request_witness :
    handleSubmit (worldWith "" []) (bodyRequest "\x7b\"row_data\":[\"a\", 1]\x7d") =
      (httpError "Invalid JSON" 400, []) ∧
    handleSubmit (worldWith "" []) (bodyRequest "\x7b\"row_data\":[\"a\"") =
      (httpError "Invalid JSON" 400, []) ∧
    handleSubmit (worldWith "" []) (bodyRequest "row_data=a") =
      (httpError "Invalid JSON" 400, []) ∧
    (∃ s, decodeSheetRequest (bodyRequest "\x7b\"row_data\":[null, \"a\"]\x7d").body =
        .ok ⟨s, [JValue.null, JValue.str "a"].map cellText⟩ ∧
      savesOf (handleSubmit (worldWith "" [])
        (bodyRequest "\x7b\"row_data\":[null, \"a\"]\x7d")).2 =
        [(s, [JValue.null, JValue.str "a"].map cellText)]) :=
  ⟨((handleSubmit_bad_request (worldWith "" [])
      (bodyRequest "\x7b\"row_data\":[\"a\", 1]\x7d")).1
      ⟨.typeMismatch "number" "string", by decide⟩).1,
   ((handleSubmit_bad_request (worldWith "" [])
      (bodyRequest "\x7b\"row_data\":[\"a\"")).1 ⟨.invalidText, by decide⟩).1,
   ((handleSubmit_bad_request (worldWith "" []) (bodyRequest "row_data=a")).1
      ⟨.invalidText, by decide⟩).1,
   (handleSubmit_bad_request (worldWith "" [])
      (bodyRequest "\x7b\"row_data\":[null, \"a\"]\x7d")).2.2.2.2.1
      [("row_data", .array [.null, .str "a"])] [.null, .str "a"] rfl rfl rfl⟩

/-- C2 as stated fails: a body made of a JSON object followed by bytes that are
no JSON is not valid JSON, yet `handleSubmit` calls `saveToGoogleSheets` with
the row of the object and answers 200; and a `null` in `row_data`, which is not
a string, is taken as an empty cell. -/
theorem handleSubmit_trailing_bytes_counterexample :
    jsonValid "\x7b\"target_sheet\":\"Logs\",\"row_data\":[\"a\"]\x7d trailing" = false ∧
    (handleSubmit (worldWith "" [])
      (bodyRequest "\x7b\"target_sheet\":\"Logs\",\"row_data\":[\"a\"]\x7d trailing")).1 =
      ⟨200, [], .text "Saved Successfully"⟩ ∧
    savesOf (handleSubmit (worldWith "" [])
      (bodyRequest "\x7b\"target_sheet\":\"Logs\",\"row_data\":[\"a\"]\x7d trailing")).2 =
      [("Logs", ["a"])] ∧
    savesOf (handleSubmit (worldWith "" [])
      (bodyRequest "\x7b\"row_data\":[null, \"a\"]\x7d")).2 = [("", ["", "a"])] := by
  decide


end FitnessBackend
